import Mathlib

/-!
Verification of the query-compilation engine (`frappe/database/query.py`).

The development shallow-embeds the condition compiler (`Engine.build_conditions`,
`Engine.dict_query`, `Engine.misc_query`, `Engine.add_conditions`), the
module-level operator wrappers (`func_in`, `func_not_in`, `change_orderby`,
`get_nested_set_hierarchy_result`), the field resolver
(`Engine.set_fields` and its helpers) and the join planner
(`Engine.join_child_tables`).  Pure Python string operations are modelled by
executable Lean functions over `List Char`; the external database is modelled
as an explicit list of rows passed to the functions that query it; fallible
Python code (KeyError, IndexError, ValueError, AttributeError, TypeError)
is modelled with `Except`.
-/

/-! ## Python string primitives -/

/-- ASCII lower-casing of a character, as Python `str.lower`/`str.casefold`
behave on the ASCII strings this engine manipulates. -/
def lowChar (c : Char) : Char :=
  if 'A' ≤ c ∧ c ≤ 'Z' then Char.ofNat (c.toNat + 32) else c

/-- ASCII upper-casing of a character (used by Python `str.capitalize`). -/
def upChar (c : Char) : Char :=
  if 'a' ≤ c ∧ c ≤ 'z' then Char.ofNat (c.toNat - 32) else c

/-- Python `s.lower()` / `s.casefold()` (identical on ASCII input). -/
def lowerStr (s : String) : String := String.mk (s.data.map lowChar)

/-- Python `s.capitalize()`: first character upper-cased, the rest lower-cased. -/
def pyCapitalize (s : String) : String :=
  match s.data with
  | [] => ""
  | c :: cs => String.mk (upChar c :: cs.map lowChar)

/-- Does `pat` occur as a prefix of `s`? -/
def subPrefix : List Char → List Char → Bool
  | [], _ => true
  | _ :: _, [] => false
  | p :: ps, c :: cs => p = c && subPrefix ps cs

/-- Does `pat` occur as a contiguous sublist of `s`? -/
def hasSubL (pat : List Char) : List Char → Bool
  | [] => pat.isEmpty
  | c :: cs => subPrefix pat (c :: cs) || hasSubL pat cs

/-- Python `pat in s` (substring containment). -/
def hasSub (s pat : String) : Bool := hasSubL pat.data s.data

/-- Drop the longest suffix whose characters satisfy `p`. -/
def dropEndWhile (p : Char → Bool) : List Char → List Char
  | [] => []
  | c :: cs =>
    match dropEndWhile p cs with
    | [] => if p c then [] else [c]
    | r => c :: r

/-- Python `s.strip(chars)` for a character predicate: remove matching
characters from both ends. -/
def pyStripChars (p : Char → Bool) (s : String) : String :=
  String.mk (dropEndWhile p (s.data.dropWhile p))

/-- Python `s.strip()` (whitespace on both ends). -/
def pyStripS (s : String) : String := pyStripChars Char.isWhitespace s

/-- Python `s.strip('"').strip("'")` as performed by `Engine.get_table`. -/
def stripQuotes (s : String) : String :=
  pyStripChars (· = '\'') (pyStripChars (· = '"') s)

/-- Worker for whitespace tokenisation: `cur` is the (reversed) token being
accumulated. -/
def wsTokensGo : List Char → List Char → List (List Char)
  | cur, [] => if cur.isEmpty then [] else [cur.reverse]
  | cur, c :: cs =>
    if c.isWhitespace then
      if cur.isEmpty then wsTokensGo [] cs else cur.reverse :: wsTokensGo [] cs
    else wsTokensGo (c :: cur) cs

/-- Python `s.split()` with no argument: split on whitespace runs, discarding
empty pieces. -/
def pySplit (s : String) : List String :=
  (wsTokensGo [] s.data).map String.mk

/-- Characters of `s` strictly before the first occurrence of `c`
(Python `s.split(c, 1)[0]`). -/
def takeUntil (c : Char) : List Char → List Char
  | [] => []
  | x :: xs => if x = c then [] else x :: takeUntil c xs

/-- Index of the first occurrence of `c` (Python `s.index(c)`, `none` when the
lookup raises ValueError). -/
def idxOf (c : Char) : List Char → Option Nat
  | [] => Option.none
  | x :: xs => if x = c then some 0 else (idxOf c xs).map (· + 1)

/-- Python slice `s[a:b]` for `0 ≤ a, b`. -/
def sliceStr (s : String) (a b : Nat) : String :=
  String.mk ((s.data.drop a).take (b - a))

/-- Case-insensitive prefix test (used to model `re.sub(name, "", s, flags=re.IGNORECASE)`
with a plain-word pattern). -/
def ciPrefix : List Char → List Char → Bool
  | [], _ => true
  | _ :: _, [] => false
  | p :: ps, c :: cs => lowChar p = lowChar c && ciPrefix ps cs

/-- Fuel-driven worker removing every case-insensitive occurrence of `pat`
from `s`, scanning left to right (one unit of fuel per consumed character). -/
def replCIGo : Nat → List Char → List Char → List Char
  | 0, s, _ => s
  | _ + 1, [], _ => []
  | fuel + 1, c :: cs, pat =>
    if ciPrefix pat (c :: cs) then replCIGo fuel (List.drop (pat.length - 1) cs) pat
    else c :: replCIGo fuel cs pat

/-- `re.sub(pat, "", s, flags=re.IGNORECASE)` for a plain-word pattern `pat`
(the source uses the SQL function name, which contains no regex metacharacters). -/
def replCI (s pat : String) : String :=
  if pat.isEmpty then s else String.mk (replCIGo s.data.length s.data pat.data)

/-- Fuel-driven worker removing every occurrence of `pat` from `s`, scanning
left to right (Python `str.replace` with an empty replacement). -/
def replGo : Nat → List Char → List Char → List Char
  | 0, s, _ => s
  | _ + 1, [], _ => []
  | fuel + 1, c :: cs, pat =>
    if subPrefix pat (c :: cs) then replGo fuel (List.drop (pat.length - 1) cs) pat
    else c :: replGo fuel cs pat

/-- Python `s.replace(pat, "")` (the source only ever replaces with the empty
string; an empty pattern with an empty replacement leaves `s` unchanged). -/
def pyReplace (s pat : String) : String :=
  if pat.isEmpty then s else String.mk (replGo s.data.length s.data pat.data)

/-- Fuel-driven worker for splitting on a (nonempty) separator, scanning left
to right with non-overlapping matches; `cur` is the (reversed) piece being
accumulated. -/
def splitOnGo (sep : List Char) : Nat → List Char → List Char → List String
  | _, cur, [] => [String.mk cur.reverse]
  | 0, cur, rest => [String.mk (cur.reverse ++ rest)]
  | fuel + 1, cur, c :: cs =>
    if subPrefix sep (c :: cs) then
      String.mk cur.reverse :: splitOnGo sep fuel [] (List.drop (sep.length - 1) cs)
    else splitOnGo sep fuel (c :: cur) cs

/-- Python `s.split(sep)` for a nonempty separator (the source never splits on
an empty separator). -/
def pySplitOn (s sep : String) : List String :=
  if sep.isEmpty then [s] else splitOnGo sep.data s.data.length [] s.data

/-- The suffix just after the first `')'`, or `none` when no `')'` follows. -/
def afterClose : List Char → Option (List Char)
  | [] => Option.none
  | c :: cs => if c = ')' then some cs else afterClose cs

/-- Fuel-driven worker for `BRACKETS_PATTERN.sub("", s)` where
`BRACKETS_PATTERN = re.compile(r"\(.*?\)|$")`: every lazily-matched
parenthesised group is removed (an unmatched `'('` with no later `')'`
matches nothing and is kept).  The `|$` alternative only matches the empty
string and removing it is a no-op.  The source regex `.` does not cross
newlines; the engine's field strings are newline-free. -/
def rbGo : Nat → List Char → List Char
  | 0, s => s
  | _ + 1, [] => []
  | fuel + 1, c :: cs =>
    if c = '(' then
      match afterClose cs with
      | some rest => rbGo fuel rest
      | Option.none => c :: cs
    else c :: rbGo fuel cs

/-- `BRACKETS_PATTERN.sub("", s)` from the source. -/
def removeBrackets (s : String) : String := String.mk (rbGo s.data.length s.data)

/-- Does the remainder reach a `')'` before any `'('`?  This is the regex
lookahead `[^()]*\)` used inside `COMMA_PATTERN`. -/
def lookCloseParen : List Char → Bool
  | [] => false
  | c :: cs => if c = ')' then true else if c = '(' then false else lookCloseParen cs

/-- Worker splitting on `COMMA_PATTERN = re.compile(r",\s*(?![^()]*\))")`: split
at each comma whose remainder does not reach `')'` before `'('`.  The source
separator also consumes the whitespace after the comma; every split piece is
passed through `str.strip()` immediately afterwards, so the model leaves that
whitespace in the piece. -/
def splitFCGo : List Char → List Char → List String
  | cur, [] => [String.mk cur.reverse]
  | cur, c :: cs =>
    if c = ',' ∧ lookCloseParen cs = false then String.mk cur.reverse :: splitFCGo [] cs
    else splitFCGo (c :: cur) cs

/-- `COMMA_PATTERN.split(s)` from the source. -/
def splitFuncCommas (s : String) : List String := splitFCGo [] s.data

/-- Value of a digit run, `none` if empty or not all digits. -/
def parseNatDigits (cs : List Char) : Option Nat :=
  if cs.isEmpty then Option.none
  else if cs.all Char.isDigit then
    some (cs.foldl (fun n c => n * 10 + (c.toNat - 48)) 0)
  else Option.none

/-- Result of Python `ast.literal_eval` restricted to the literals this engine
meets (integers, simple float literals kept as text, quoted strings, booleans,
`None`); everything else keeps the original string, as `literal_eval_` in the
source returns its argument on ValueError/SyntaxError. -/
inductive PyLit where
  | strL (s : String)
  | intL (n : Int)
  | floatL (text : String)
  | boolL (b : Bool)
  | noneLit
deriving DecidableEq, Repr

/-- Is `cs` a simple float literal `digits . digits` with at least one digit
(no exponent; exponent forms are outside the model's input space)? -/
def isFloatBody (cs : List Char) : Bool :=
  cs.count '.' = 1 ∧ cs.all (fun c => c.isDigit ∨ c = '.') ∧ cs.any Char.isDigit

/-- Numeric part of a literal after an optional sign. -/
def parseNumLit (sign : Bool) (cs : List Char) (orig : String) : PyLit :=
  match parseNatDigits cs with
  | some n => .intL (if sign then -(n : Int) else (n : Int))
  | Option.none => if isFloatBody cs then .floatL orig else .strL orig

/-- `literal_eval_` from the source: `ast.literal_eval`, falling back to the
original string on failure. -/
def literal_eval_ (s : String) : PyLit :=
  if s = "True" then .boolL true
  else if s = "False" then .boolL false
  else if s = "None" then .noneLit
  else
    match s.data with
    | '-' :: rest => parseNumLit true rest s
    | '+' :: rest => parseNumLit false rest s
    | c :: rest =>
      if (c = '\'' ∨ c = '"') ∧ rest.length ≥ 1 ∧ rest.getLast? = some c ∧
          (rest.dropLast.all (fun d => d ≠ '\'' ∧ d ≠ '"' ∧ d ≠ '\\')) then
        .strL (String.mk rest.dropLast)
      else parseNumLit false (c :: rest) s
    | [] => parseNumLit false [] s

/-! ## Data model -/

/-- `pypika.Order` (ordering direction). -/
inductive Order where
  | asc
  | desc
deriving DecidableEq, Repr

/-- Python exceptions raised while a query is built. -/
inductive Err where
  | keyError
  | indexError
  | valueError
  | attributeError
  | typeError
deriving DecidableEq, Repr

/-- Sequence a fallible function over a list in order, aborting at the first
error (the monadic map performed by the source's loops and comprehensions). -/
def mapME {a b : Type} (f : a → Except Err b) : List a → Except Err (List b)
  | [] => .ok []
  | x :: xs => do
    let y ← f x
    let ys ← mapME f xs
    .ok (y :: ys)

/-- The predicate builders stored in `OPERATOR_MAP`.  `=<` and `<=` map to the
same builder (`operator.le`), likewise `=>` and `>=` (`operator.ge`). -/
inductive Op where
  | add | eq | sub | ne | lt | gt | le | ge | truediv | mul
  | opIn | opNotIn | likeOp | notLikeOp | regexOp | betweenOp
  | isOp | timespanOp | nestedSetOp
deriving DecidableEq, Repr

/-- Is the builder a Python `BuiltinFunctionType` (the `operator` module
functions)?  The wrapper functions (`func_in`, `like`, …) are plain Python
functions and `NestedSetHierarchy` is a tuple, so only the arithmetic and
comparison entries qualify. -/
def isPrimitiveOp : Op → Bool
  | .add | .eq | .sub | .ne | .lt | .gt | .le | .ge | .truediv | .mul => true
  | _ => false

/-- An argument of a structured SQL function node as built by
`Engine.get_function_object`. -/
inductive FuncArg where
  | fieldA (name : String)
  | pseudoA (name : String)
  | arithA (op : Op) (l r : FuncArg)
  | rawA (v : PyLit)
deriving DecidableEq, Repr

/-- A structured SQL function node (pypika `Function`): canonical name,
arguments, optional alias. -/
structure FuncObj where
  name : String
  args : List FuncArg
  aliasV : Option String
deriving DecidableEq, Repr

/-- A Python filter value: string, int, bool, `None`, list/tuple, dict, or a
pypika function object (produced by `get_function_object`). -/
inductive FValue where
  | vs (v : String)
  | vi (v : Int)
  | vb (v : Bool)
  | nullv
  | ls (vs : List FValue)
  | dictv (kvs : List (String × FValue))
  | fobj (fo : FuncObj)

/-- Python truthiness of a filter value. -/
def isFalsy : FValue → Bool
  | .vs s => s.isEmpty
  | .vi n => n = 0
  | .vb b => !b
  | .nullv => true
  | .ls vs => vs.isEmpty
  | .dictv kvs => kvs.isEmpty
  | .fobj _ => false

/-- Python `list(v)` on a value: lists/tuples yield their elements, strings
their characters, dicts their keys; other values raise TypeError. -/
def pyIterate : FValue → Option (List FValue)
  | .ls vs => some vs
  | .vs s => some (s.data.map (fun c => FValue.vs (String.mk [c])))
  | .dictv kvs => some (kvs.map (fun p => FValue.vs p.1))
  | _ => Option.none

/-- Left-hand side of a compiled predicate: a bare `Field(x)`, a
table-qualified column (`table[x]` / `getattr(table, key)`), a function
object, or a raw non-field object passed through by the source. -/
inductive Lhs where
  | fieldL (name : FValue)
  | colL (tbl : String) (name : FValue)
  | funcL (fo : FuncObj)
  | rawL (v : FValue)

/-- A compiled WHERE predicate (pypika criterion) as produced by the operator
wrappers in the source. -/
inductive Criterion where
  | binop (op : Op) (l : Lhs) (v : FValue)
  | isinC (l : Lhs) (vals : List FValue)
  | isinQ (l : Lhs) (v : FValue)
  | notinC (l : Lhs) (vals : List FValue)
  | notinQ (l : Lhs) (v : FValue)
  | likeC (l : Lhs) (v : FValue)
  | notLikeC (l : Lhs) (v : FValue)
  | regexC (l : Lhs) (v : FValue)
  | betweenC (l : Lhs) (lo hi : FValue)
  | isNullC (l : Lhs)
  | isNotNullC (l : Lhs)
  | timespanC (l : Lhs) (label : String)
  | rawC (tag : String)

/-- One emitted JOIN clause: `<join-type> JOIN <child> ON child.parent =
parent.name AND child.parenttype = TAB_PATTERN.sub("", parent._table_name)`.
A table handle `DocType(name)` has `_table_name = "tab" + name`
(`frappe.query_builder`, outside src/), so the recorded parenttype is the
doctype name with the `tab` prefix stripped back off. -/
structure JoinClause where
  joinType : String
  childTable : String
  parentTable : String
  parenttypeVal : String
deriving DecidableEq, Repr

/-- `TAB_PATTERN.sub("", s)` with `TAB_PATTERN = re.compile("^tab")`. -/
def tabStripPrefix (s : String) : String :=
  if subPrefix "tab".data s.data then String.mk (s.data.drop 3) else s

/-- The query object under construction (pypika query builder state): the
FROM table, the chain of AND-ed WHERE predicates, emitted joins, ORDER BY
terms, LIMIT/OFFSET, DISTINCT, FOR UPDATE and GROUP BY. -/
structure Conditions where
  fromTable : String
  updateMode : Bool := false
  intoMode : Bool := false
  wheres : List Criterion := []
  joins : List JoinClause := []
  orderbys : List (String × Order) := []
  limitN : Option Int := Option.none
  offsetN : Option Int := Option.none
  isDistinct : Bool := false
  forUpdateFlag : Bool := false
  groupbys : List String := []

/-- `conditions.where(c)`: AND one more predicate onto the chain. -/
def addWhere (c : Conditions) (p : Criterion) : Conditions :=
  { c with wheres := c.wheres ++ [p] }

/-- The `**kwargs` options bag consumed by the engine (only the keys the
embedded functions read). -/
structure Kwargs where
  update : Bool := false
  into : Bool := false
  orderby : Option String := Option.none
  order : Option Order := Option.none
  limit : Option Int := Option.none
  offset : Option Int := Option.none
  distinctFlag : Bool := false
  forUpdate : Bool := false
  groupby : Option String := Option.none
  pluck : Option String := Option.none

/-- Result of `misc_query`/`build_conditions`: normally a query object; the
legacy bare-element branch of `misc_query` can instead return a bare criterion
(the source assigns `conditions = self.make_function_for_filters(...)`). -/
inductive QResult where
  | q (c : Conditions)
  | crit (c : Criterion)

/-- A row of the nested-set reference table: identifier and left/right tree
bounds.  The database itself is an external collaborator; it is modelled as an
explicit list of rows (in table order) passed to the functions that query it. -/
structure NsRow where
  name : String
  lft : Int
  rgt : Int
deriving DecidableEq, Repr

/-- The shapes a `filters` argument to `build_conditions` can take: scalar int,
scalar string, opaque pre-built criterion, list, tuple, dict, or `None`. -/
inductive Filters where
  | fInt (n : Int)
  | fStr (s : String)
  | fCrit (tag : String)
  | fList (fs : List FValue)
  | fTuple (fs : List FValue)
  | fDict (kvs : List (String × FValue))
  | fNone

/-! ## Operator wrappers and the operator table -/

/-- `func_in` from the source: a string operand is first split on commas; a
list/tuple operand is used as is; any other operand is handed to pypika's
`isin` unchanged (pypika treats a non-sequence argument as a subquery-style
operand rather than raising). -/
def func_in (key : Lhs) (value : FValue) : Criterion :=
  match value with
  | .vs s => .isinC key ((pySplitOn s ",").map FValue.vs)
  | .ls vs => .isinC key vs
  | v => .isinQ key v

/-- `func_not_in` from the source (same operand handling as `func_in`). -/
def func_not_in (key : Lhs) (value : FValue) : Criterion :=
  match value with
  | .vs s => .notinC key ((pySplitOn s ",").map FValue.vs)
  | .ls vs => .notinC key vs
  | v => .notinQ key v

/-- `func_between` from the source: `key[slice(*value)]`.  `slice` needs one to
three positional arguments; one argument sets only the upper bound, pypika's
`__getitem__` reads `item.start`/`item.stop` and ignores a step. -/
def func_between (key : Lhs) (value : FValue) : Except Err Criterion :=
  match pyIterate value with
  | Option.none => .error .typeError
  | some vs =>
    match vs with
    | [hi] => .ok (.betweenC key .nullv hi)
    | [lo, hi] => .ok (.betweenC key lo hi)
    | [lo, hi, _] => .ok (.betweenC key lo hi)
    | _ => .error .typeError

/-- `func_is` from the source: `key.isnotnull()` when the operand lower-cases
to `"set"`, else `key.isnull()`; a non-string operand has no `.lower()`. -/
def func_is (key : Lhs) (value : FValue) : Except Err Criterion :=
  match value with
  | .vs s => .ok (if lowerStr s = "set" then .isNotNullC key else .isNullC key)
  | _ => .error .attributeError

/-- `func_timespan` from the source.  `get_timespan_date_range` is an external
collaborator (`frappe.model.db_query`); the criterion records the label of the
resolved BETWEEN range. -/
def func_timespan (key : Lhs) (value : FValue) : Except Err Criterion :=
  match value with
  | .vs s => .ok (.timespanC key s)
  | _ => .error .typeError

/-- Modelled from the spec: `NestedSetHierarchy` (`frappe.database.utils`, not
under src/) is the tuple of recognised hierarchy verbs `ancestors of`,
`descendants of`, `not ancestors of`, `not descendants of`. -/
def nestedSetHierarchy : List String :=
  ["ancestors of", "descendants of", "not ancestors of", "not descendants of"]

/-- The module-level `OPERATOR_MAP`, in source order, with each token mapped to
its builder (`Engine.OPERATOR_MAP` copies this map unchanged; the
`filters_config` hook only emits a warning). -/
def operatorMap : List (String × Op) :=
  [("+", .add), ("=", .eq), ("-", .sub), ("!=", .ne), ("<", .lt), (">", .gt),
   ("<=", .le), ("=<", .le), (">=", .ge), ("=>", .ge), ("/", .truediv),
   ("*", .mul), ("in", .opIn), ("not in", .opNotIn), ("like", .likeOp),
   ("not like", .notLikeOp), ("regex", .regexOp), ("between", .betweenOp),
   ("is", .isOp), ("timespan", .timespanOp), ("nested_set", .nestedSetOp)]

/-- Dictionary lookup `OPERATOR_MAP[tok]` (the call sites casefold the token
first; a miss raises KeyError). -/
def lookupOp (tok : String) : Option Op :=
  (operatorMap.find? (fun p => p.1 = tok)).map (·.2)

/-- Apply a builder from `OPERATOR_MAP` to a key and an operand, as
`_operator(key, value)` does in the source.  The `nested_set` entry is the
verb tuple, which is not callable. -/
def applyOp (op : Op) (key : Lhs) (value : FValue) : Except Err Criterion :=
  match op with
  | .add | .eq | .sub | .ne | .lt | .gt | .le | .ge | .truediv | .mul =>
    .ok (.binop op key value)
  | .opIn => .ok (func_in key value)
  | .opNotIn => .ok (func_not_in key value)
  | .likeOp => .ok (.likeC key value)
  | .notLikeOp => .ok (.notLikeC key value)
  | .regexOp => .ok (.regexC key value)
  | .betweenOp => func_between key value
  | .isOp => func_is key value
  | .timespanOp => func_timespan key value
  | .nestedSetOp => .error .typeError

/-! ## Nested-set hierarchy lookup -/

/-- Insert into a list sorted by `le` (stable). -/
def insertSorted (le : NsRow → NsRow → Bool) (x : NsRow) : List NsRow → List NsRow
  | [] => [x]
  | y :: ys => if le x y then x :: y :: ys else y :: insertSorted le x ys

/-- Sort rows by `le` (models the database's ORDER BY). -/
def sortRows (le : NsRow → NsRow → Bool) : List NsRow → List NsRow
  | [] => []
  | x :: xs => insertSorted le x (sortRows le xs)

/-- `get_nested_set_hierarchy_result` from the source.  The reference row is
the first row whose `name` equals the reference value (`run()[0]`); when no
row matches, `lft`/`rgt` are `None` and both range comparisons against NULL
match nothing.  `"descendants of"` and `"not descendants of"` take the
descendant-range branch (`lft` strictly greater, `rgt` strictly less, ordered
by `lft` ascending); every other verb takes the ancestor-range branch (`lft`
strictly less, `rgt` strictly greater, ordered by `lft` descending). -/
def get_nested_set_hierarchy_result (db : List NsRow) (hierarchy : String)
    (field : FValue) (_tbl : String) : List String :=
  let ref := db.find? (fun r => match field with | .vs x => r.name = x | _ => false)
  match ref with
  | Option.none => []
  | some row =>
    if hierarchy = "descendants of" ∨ hierarchy = "not descendants of" then
      ((sortRows (fun a b => a.lft ≤ b.lft)
        (db.filter (fun r => row.lft < r.lft ∧ r.rgt < row.rgt))).map (·.name))
    else
      ((sortRows (fun a b => b.lft ≤ a.lft)
        (db.filter (fun r => r.lft < row.lft ∧ row.rgt < r.rgt))).map (·.name))

/-! ## Function-string parsing (`get_function_object`) -/

/-- The lambda inside the primitive-operator branch of `get_function_object`:
each side of the split argument becomes a stripped `Field`, or a
`PseudoColumnMapper` when the unstripped side contains a backtick. -/
def mkArgField (p : String) : FuncArg :=
  if hasSub p "`" then .pseudoA (pyStripS p) else .fieldA (pyStripS p)

/-- The operator scan of `get_function_object`: walk `OPERATOR_MAP` in order;
for every token occurring in the decoded argument whose builder is a primitive
(`BuiltinFunctionType`), split the raw argument on the token and build the
arithmetic node — the last matching token wins.  Calling the builder with a
number of parts other than two raises TypeError. -/
def arithScanGo (decoded rawArg : String) :
    List (String × Op) → Option FuncArg → Except Err (Option FuncArg)
  | [], acc => .ok acc
  | (tok, op) :: rest, acc =>
    if hasSub decoded tok then
      if isPrimitiveOp op then
        match pySplitOn rawArg tok with
        | [a, b] => arithScanGo decoded rawArg rest (some (.arithA op (mkArgField a) (mkArgField b)))
        | _ => .error .typeError
      else arithScanGo decoded rawArg rest acc
    else arithScanGo decoded rawArg rest acc

/-- One argument of `get_function_object`: literal-decode the stripped text;
in the cast branch a non-string decode raises TypeError at the `in` test, a
string is scanned for primitive operators and otherwise becomes a plain
`Field` (or `PseudoColumnMapper` when it contains a backtick); when `"*"` is
among the arguments the decoded value is kept raw. -/
def processFuncArg (toCast : Bool) (arg : String) : Except Err FuncArg := do
  let initial := literal_eval_ (pyStripS arg)
  if toCast then
    match initial with
    | .strL s0 => do
      let scanned ← arithScanGo s0 arg operatorMap Option.none
      match scanned with
      | some fa => .ok fa
      | Option.none => .ok (if hasSub s0 "`" then .pseudoA s0 else .fieldA s0)
    | _ => .error .typeError
  else .ok (.rawA initial)

/-- Modelled from the spec: the known-function registry
(`frappe.query_builder.functions`, not under src/) maps the capitalised
attribute name looked up by `getattr(functions, func)` to the pypika
function's canonical SQL name; `getattr` misses fall back to a generic
`Function(func, ...)` keeping the capitalised name. -/
def knownFunctions : List (String × String) :=
  [("Sum", "SUM"), ("Avg", "AVG"), ("Count", "COUNT"), ("Max", "MAX"),
   ("Min", "MIN"), ("Abs", "ABS"), ("Now", "NOW"), ("Concat", "CONCAT"),
   ("Timestamp", "TIMESTAMP"), ("Ifnull", "IFNULL"), ("Coalesce", "COALESCE")]

/-- Resolve the function name through the registry, falling back to the
capitalised name itself. -/
def canonFuncName (func : String) : String :=
  ((knownFunctions.find? (fun p => p.1 = func)).map (·.2)).getD func

/-- `Engine.get_function_object` from the source: parse
`func_name(arg1, arg2) as alias` into a structured function node.  The name is
the capitalised text before the first `'('`; the argument text runs from there
to the first `')'` (`field.index(")")` raises ValueError if absent) and is
split on plain commas; `field.split(" as ")` must yield exactly two parts when
`" as "` occurs; backticks are stripped from a truthy alias; `now` returns a
zero-argument node with no alias. -/
def get_function_object (field : String) : Except Err FuncObj := do
  let func := pyCapitalize (String.mk (takeUntil '(' field.data))
  match idxOf ')' field.data with
  | Option.none => .error .valueError
  | some closeIdx => do
    let args := pySplitOn (sliceStr field (func.length + 1) closeIdx) ","
    let aliasV ← if hasSub field " as " then
        match pySplitOn field " as " with
        | [_, a] => .ok (some a)
        | _ => .error .valueError
      else .ok Option.none
    let toCast := !(args.contains "*")
    let fArgs ← mapME (processFuncArg toCast) args
    let aliasV := match aliasV with
      | some a => some (if ¬a.isEmpty ∧ hasSub a "`" then pyReplace a "`" else a)
      | Option.none => Option.none
    let aliasV := match aliasV with
      | some a => if a.isEmpty then Option.none else some a
      | Option.none => Option.none
    if lowerStr func = "now" then .ok { name := canonFuncName func, args := [], aliasV := Option.none }
    else .ok { name := canonFuncName func, args := fArgs, aliasV := aliasV }

/-- `has_function` from the source: the candidate (casefolded unless it
contains a backtick) is scanned for each known SQL function name followed by
`"("` (`SqlFunctions` lives in `frappe.query_builder.functions`, outside
src/), or for any parenthesis at all.  Since the substring `name(` itself
contains `(`, the disjunction is equivalent to the plain parenthesis test,
which is what the model uses.  Criterion-typed candidates never reach the
string test. -/
def has_function (field : String) : Bool :=
  let f := if hasSub field "`" then field else lowerStr field
  hasSub f "("

/-! ## Shared modifiers and the condition compiler -/

/-- `change_orderby` from the source: whitespace-split the segment; ascending
when the second token lower-cases to `"asc"` (IndexError from a missing second
token is caught and falls back to descending); an all-whitespace segment
raises IndexError at `order[0]`. -/
def change_orderby (order : String) : Except Err (String × Order) :=
  match pySplit order with
  | [] => .error .indexError
  | [f] => .ok (f, .desc)
  | f :: snd :: _ => .ok (f, if lowerStr snd = "asc" then .asc else .desc)

/-- The multi-segment ORDER BY loop of `Engine.add_conditions`: each
comma-separated segment that is nonempty after stripping contributes one
ORDER BY term. -/
def orderLoop (conditions : Conditions) : List String → Except Err Conditions
  | [] => .ok conditions
  | seg :: rest =>
    let t := pyStripS seg
    if t.isEmpty then orderLoop conditions rest
    else do
      let fo ← change_orderby t
      orderLoop { conditions with orderbys := conditions.orderbys ++ [fo] } rest

/-- The orderby stage of `add_conditions` (the `if kwargs.get("orderby") ...`
block). -/
def addCondOrderStage (conditions : Conditions) (kw : Kwargs) : Except Err Conditions :=
  match kw.orderby with
  | some ob =>
    if ¬ob.isEmpty ∧ ob ≠ "KEEP_DEFAULT_ORDERING" then
      if (pySplit ob).length > 1 then orderLoop conditions (pySplitOn ob ",")
      else .ok { conditions with
                 orderbys := conditions.orderbys ++ [(ob, kw.order.getD Order.desc)] }
    else .ok conditions
  | Option.none => .ok conditions

/-- The remaining stages of `add_conditions`: `limit`+`offset`, `distinct`,
`for_update`, `groupby`. -/
def addCondRest (conditions : Conditions) (kw : Kwargs) : Conditions :=
  let conditions := match kw.limit with
    | some l =>
      if l ≠ 0 then { conditions with limitN := some l, offsetN := some (kw.offset.getD 0) }
      else conditions
    | Option.none => conditions
  let conditions := if kw.distinctFlag then { conditions with isDistinct := true } else conditions
  let conditions := if kw.forUpdate then { conditions with forUpdateFlag := true } else conditions
  match kw.groupby with
  | some g =>
    if ¬g.isEmpty then { conditions with groupbys := conditions.groupbys ++ [g] }
    else conditions
  | Option.none => conditions

/-- `Engine.add_conditions` from the source: apply the shared modifiers
(`orderby`/`order`, `limit`+`offset`, `distinct`, `for_update`, `groupby`).
The comma-splitting loop is entered only when the orderby option is a string
with more than one whitespace-separated word; otherwise a single ORDER BY term
is added for the whole string with the `order` option (default descending).
A `limit` of 0 is falsy and leaves both limit and offset unset. -/
def add_conditions (conditions : Conditions) (kw : Kwargs) : Except Err Conditions := do
  let conditions ← addCondOrderStage conditions kw
  .ok (addCondRest conditions kw)

/-- `Engine.get_condition`: the initial query object for the table (quotes
stripped by `get_table`), as an UPDATE, INSERT target, or SELECT source. -/
def get_condition (tbl : String) (kw : Kwargs) : Conditions :=
  if kw.update then { fromTable := stripQuotes tbl, updateMode := true }
  else if kw.into then { fromTable := stripQuotes tbl, intoMode := true }
  else { fromTable := stripQuotes tbl }

/-- `Engine.criterion_query`: shared modifiers, then the opaque criterion is
attached via WHERE. -/
def criterion_query (tbl : String) (tag : String) (kw : Kwargs) : Except Err Conditions := do
  let c ← add_conditions (get_condition tbl kw) kw
  .ok (addWhere c (.rawC tag))

/-- Python `xs[i]` (IndexError when out of range; the source never indexes
negatively on these paths except `f[-2]`/`f[-1]`, which the callers translate
to `len-2`/`len-1` after a length guard). -/
def getEl (vs : List FValue) (i : Nat) : Except Err FValue :=
  match vs[i]? with
  | some v => .ok v
  | Option.none => .error .indexError

/-- The boolean-coercion pass at the top of `dict_query`: boolean values are
replaced by `str(int(value))`. -/
def boolCoerce : FValue → FValue
  | .vb b => .vs (if b then "1" else "0")
  | v => v

/-- The key-preprocessing comprehension of `dict_query`: keys that look like
function calls are replaced by their structured function objects. -/
def prepKey (k : String) : Except Err (Sum String FuncObj) :=
  if has_function k then (get_function_object k).map Sum.inr else .ok (Sum.inl k)

/-- `Engine.make_function_for_filters`: `value` is materialised with
`list(value)`; a function-call string in `value[1]` is parsed into a function
object; then the builder for `value[0].casefold()` is applied. -/
def make_function_for_filters (key : Lhs) (value : FValue) : Except Err Criterion := do
  let vs ← match pyIterate value with
    | some vs => Except.ok vs
    | Option.none => Except.error Err.typeError
  let v1 ← getEl vs 1
  let v1 ← match v1 with
    | .vs s =>
      if has_function s then (get_function_object s).map FValue.fobj else Except.ok v1
    | _ => Except.ok v1
  let v0 ← getEl vs 0
  let tok ← match v0 with
    | .vs s => Except.ok (lowerStr s)
    | _ => Except.error Err.attributeError
  let op ← match lookupOp tok with
    | some op => Except.ok op
    | Option.none => Except.error Err.keyError
  applyOp op key v1

/-- Is the value a string naming a hierarchy verb
(`value[0] in self.OPERATOR_MAP["nested_set"]`)? -/
def isNestedVerbV : FValue → Bool
  | .vs s => nestedSetHierarchy.contains s
  | _ => false

/-- The per-entry loop of `Engine.dict_query` over the (insertion-ordered)
dict entries.  Function-object keys go through `make_function_for_filters` and
continue.  A list/tuple value whose first element is a hierarchy verb compiles
to a membership test over the pre-computed id list — `not`-prefixed verbs via
`NOT IN`, the others via `IN`; an empty id list degrades to the one-element
tuple `("",)` — and then BREAKS out of the loop, skipping every remaining
entry.  Other list/tuple values are `(operator, operand)` pairs with a falsy
operand replaced by `("",)`; a `None` value compiles to `IS NULL` on the FROM
table (`conditions._from[0]`, which an UPDATE/INSERT query does not have);
anything else is a plain equality. -/
def dictLoop (db : List NsRow) (tbl : String) :
    Conditions → List (Sum String FuncObj × FValue) → Except Err Conditions
  | conditions, [] => .ok conditions
  | conditions, (key, value) :: rest =>
    match key with
    | .inr fo => do
      let c ← make_function_for_filters (.funcL fo) value
      dictLoop db tbl (addWhere conditions c) rest
    | .inl k =>
      match value with
      | .ls vs => do
        let v0 ← getEl vs 0
        if isNestedVerbV v0 then
          match v0, vs with
          | .vs h, [_, f] => do
            let result := get_nested_set_hierarchy_result db h f tbl
            let op := if h = "not ancestors of" ∨ h = "not descendants of"
                      then Op.opNotIn else Op.opIn
            let c ← if result.isEmpty then applyOp op (.colL tbl (.vs k)) (.ls [.vs ""])
                    else applyOp op (.colL tbl (.vs k)) (.ls (result.map FValue.vs))
            .ok (addWhere conditions c)
          | _, _ => .error .valueError
        else do
          let tok ← match v0 with
            | .vs s => Except.ok (lowerStr s)
            | _ => Except.error Err.attributeError
          let op ← match lookupOp tok with
            | some op => Except.ok op
            | Option.none => Except.error Err.keyError
          let v1 ← getEl vs 1
          let v1 := if isFalsy v1 then FValue.ls [FValue.vs ""] else v1
          let c ← applyOp op (.colL tbl (.vs k)) v1
          dictLoop db tbl (addWhere conditions c) rest
      | .nullv =>
        if conditions.updateMode ∨ conditions.intoMode then .error .indexError
        else
          dictLoop db tbl
            (addWhere conditions (.isNullC (.colL conditions.fromTable (.vs k)))) rest
      | v => do
        let c ← applyOp .eq (.colL tbl (.vs k)) v
        dictLoop db tbl (addWhere conditions c) rest

/-- `Engine.dict_query` from the source.  A Python dict is an
insertion-ordered mapping with distinct string keys, modelled as an
association list iterated in order; the model does not reproduce pypika's
hash-based key comparison for two distinct function-object keys that render
identical SQL.  Empty filters short-circuit to the shared modifiers; otherwise
booleans are coerced, function-call keys are parsed, the entry loop runs, and
the shared modifiers are applied. -/
def dict_query (db : List NsRow) (tbl : String) (filters : List (String × FValue))
    (kw : Kwargs) : Except Err Conditions := do
  let conditions := get_condition tbl kw
  if filters.isEmpty then add_conditions conditions kw
  else do
    let filters := filters.map (fun kv => (kv.1, boolCoerce kv.2))
    let prepared ← mapME (fun kv => do
      let k ← prepKey kv.1
      pure (k, kv.2)) filters
    let conditions ← dictLoop db tbl conditions prepared
    add_conditions conditions kw

/-- The entry loop of `Engine.misc_query`.  A list/tuple entry resolves
`f[-2]` as the operator (case-insensitively; a 4-tuple qualifies the field by
the table named in `f[0]`, otherwise `Field(f[0])`) and ANDs the predicate.
A dict entry REPLACES the running conditions with a fresh `dict_query` result.
A bare entry resolves `filters[1]` (of the whole outer list) as the operator
and compiles the single positional predicate from `filters[0]` and
`filters[2]`, then breaks; when `filters[0]` is not a string the conditions
are replaced by the bare criterion from `make_function_for_filters`. -/
def miscLoop (db : List NsRow) (tbl : String) (kw : Kwargs) (original : List FValue) :
    Conditions → List FValue → Except Err QResult
  | conditions, [] => .ok (.q conditions)
  | conditions, f :: rest =>
    match f with
    | .ls items => do
      if items.length < 2 then .error .indexError
      else do
        let opv ← getEl items (items.length - 2)
        let tok ← match opv with
          | .vs s => Except.ok (lowerStr s)
          | _ => Except.error Err.attributeError
        let op ← match lookupOp tok with
          | some op => Except.ok op
          | Option.none => Except.error Err.keyError
        let fieldRef ← if items.length = 4 then do
            let f0 ← getEl items 0
            let t ← match f0 with
              | FValue.vs s => Except.ok s
              | _ => Except.error Err.attributeError
            let f1 ← getEl items 1
            pure (Lhs.colL (stripQuotes t) f1)
          else do
            let f0 ← getEl items 0
            pure (Lhs.fieldL f0)
        let lastv ← getEl items (items.length - 1)
        let c ← applyOp op fieldRef lastv
        miscLoop db tbl kw original (addWhere conditions c) rest
    | .dictv d => do
      let conditions ← dict_query db tbl d kw
      miscLoop db tbl kw original conditions rest
    | _ => do
      let f1 ← getEl original 1
      let tok ← match f1 with
        | .vs s => Except.ok (lowerStr s)
        | _ => Except.error Err.attributeError
      let op ← match lookupOp tok with
        | some op => Except.ok op
        | Option.none => Except.error Err.keyError
      let f0 ← getEl original 0
      match f0 with
      | .vs s0 => do
        let f2 ← getEl original 2
        let c ← applyOp op (.fieldL (.vs s0)) f2
        .ok (.q (addWhere conditions c))
      | _ => do
        let f2 ← getEl original 2
        let keyL : Lhs := match f0 with
          | .fobj fo => .funcL fo
          | v => .rawL v
        let c ← make_function_for_filters keyL f2
        .ok (.crit c)

/-- Are any of the kwargs branches of `add_conditions` going to call a method
on their receiver?  (Relevant when the receiver is a bare criterion, which has
none of those methods.) -/
def kwTouchesQuery (kw : Kwargs) : Bool :=
  (match kw.orderby with
   | some ob => !ob.isEmpty && ob != "KEEP_DEFAULT_ORDERING"
   | Option.none => false) ||
  (match kw.limit with | some l => l != 0 | Option.none => false) ||
  kw.distinctFlag || kw.forUpdate ||
  (match kw.groupby with | some g => !g.isEmpty | Option.none => false)

/-- `Engine.misc_query` from the source.  Falsy filters return the bare
conditions WITHOUT the shared modifiers; the entry loop runs only when the
container is a `list` (a tuple container skips it); the shared modifiers are
applied to whatever the loop left in `conditions` — a criterion left by the
bare-entry branch has none of the modifier methods. -/
def misc_query (db : List NsRow) (tbl : String) (isListContainer : Bool)
    (filters : List FValue) (kw : Kwargs) : Except Err QResult := do
  let conditions := get_condition tbl kw
  if filters.isEmpty then .ok (.q conditions)
  else do
    let r ← if isListContainer then miscLoop db tbl kw filters conditions filters
            else .ok (.q conditions)
    match r with
    | .q c => (add_conditions c kw).map QResult.q
    | .crit c => if kwTouchesQuery kw then .error .attributeError else .ok (.crit c)

/-- `Engine.build_conditions` from the source: scalar ints and strings become
the dict `{"name": str(filters)}`; criteria go to `criterion_query`;
lists/tuples to `misc_query`; everything else (dicts and `None`) to
`dict_query`. -/
def build_conditions (db : List NsRow) (tbl : String) (filters : Filters)
    (kw : Kwargs) : Except Err QResult :=
  match filters with
  | .fInt n => (dict_query db tbl [("name", .vs (toString n))] kw).map QResult.q
  | .fStr s => (dict_query db tbl [("name", .vs s)] kw).map QResult.q
  | .fCrit t => (criterion_query tbl t kw).map QResult.q
  | .fList fs => misc_query db tbl true fs kw
  | .fTuple fs => misc_query db tbl false fs kw
  | .fDict kvs => (dict_query db tbl kvs kw).map QResult.q
  | .fNone => (dict_query db tbl [] kw).map QResult.q

/-! ## Field resolver -/

/-- An element of the resolved field list: a raw string passed through to
`select`, a plain `Field`, an aliased `Field`, a `PseudoColumnMapper`, or a
structured function node. -/
inductive QField where
  | strQ (s : String)
  | fieldQ (name : String)
  | aliasedQ (name aliasName : String)
  | pseudoQ (raw : String)
  | funcQ (fo : FuncObj)
deriving DecidableEq, Repr

/-- The per-candidate test of `function_objects_from_list`: the candidate is
casefolded unless it contains a backtick; it is collected (in that casefolded
form) when it contains a known SQL function name followed by `"("` or any
parenthesis — equivalent to the plain parenthesis test, as for
`has_function`. -/
def detectFnString (f : String) : Option String :=
  let f2 := if hasSub f "`" then f else lowerStr f
  if hasSub f2 "(" then some f2 else Option.none

/-- `Engine.function_objects_from_list`: collect the function-call candidates
and parse each into a function object. -/
def function_objects_from_list (fields : List String) : Except Err (List FuncObj) :=
  (fields.filterMap detectFnString) |> mapME get_function_object

/-- `Engine.function_objects_from_string`: split on top-level commas
(`COMMA_PATTERN`), strip each piece, then proceed as for a list. -/
def function_objects_from_string (fields : String) : Except Err (List FuncObj) :=
  function_objects_from_list ((splitFuncCommas fields).map pyStripS)

/-- `_remove_string_aliasing` from `Engine.remove_string_functions`: when the
function carries a truthy alias, remove the first matching aliasing suffix
spelling (` as alias`, else the backtick spelling) from the field text. -/
def removeStringAliasing (fo : FuncObj) (fields : String) : String :=
  match fo.aliasV with
  | some al =>
    if al.isEmpty then fields
    else
      let toRep := " as " ++ lowerStr al
      if hasSub fields toRep then pyReplace fields toRep
      else if hasSub fields (" as `" ++ lowerStr al) then
        pyReplace fields (" as `" ++ lowerStr al ++ "`")
      else fields
  | Option.none => fields

/-- One function's pass of `remove_string_functions` over a string field spec:
drop the aliasing suffix, erase the function name case-insensitively, drop
every parenthesised group, and collapse to empty when only a comma is left. -/
def removeFnStrStep (fo : FuncObj) (fields : String) : String :=
  let fields := removeStringAliasing fo fields
  let fields := removeBrackets (replCI fields fo.name)
  if hasSub fields "," ∧ (pyStripS fields).length = 1 then "" else fields

/-- `Engine.remove_string_functions` on a string field spec. -/
def remove_string_functions_str (fields : String) (fos : List FuncObj) : String :=
  fos.foldl (fun fields fo => removeFnStrStep fo fields) fields

/-- The per-entry body of `remove_string_functions` on a list field spec: the
string entry loses its aliasing suffix and its parenthesised groups, is
stripped and (without a backtick) casefolded, and has every occurrence of the
casefolded function name removed. -/
def removeFnListElem (fo : FuncObj) (field : String) : String :=
  let field := removeStringAliasing fo field
  let sub := if hasSub field "`"
    then pyStripS (removeBrackets field)
    else lowerStr (pyStripS (removeBrackets field))
  if lowerStr sub = lowerStr fo.name
    then pyReplace (lowerStr sub) (lowerStr fo.name)
    else pyReplace sub (lowerStr fo.name)

/-- One function's pass of `remove_string_functions` over a list field spec:
each string entry is rewritten by `removeFnListElem` and empty results are
dropped. -/
def removeFnListStep (fo : FuncObj) (fields : List String) : List String :=
  (fields.map (removeFnListElem fo)).filter (fun f => !f.isEmpty)

/-- `Engine.remove_string_functions` on a list field spec (non-string entries
would be dropped by the source loop; the embedded field specs are strings). -/
def remove_string_functions_list (fields : List String) (fos : List FuncObj) : List String :=
  fos.foldl (fun fields fo => removeFnListStep fo fields) fields

/-- The per-field body of `Engine.get_fieldnames_from_child_table`: a dotted
field without a `tab` substring is rewritten to the backticked child-table
reference via the metadata collaborator `meta`
(`frappe.get_meta(...).get_field(...).options`, external); a missing link
field raises; an ` as ` alias is re-attached with a space. -/
def gfcEntry (doctype : String) (meta : String → String → Option String)
    (field : String) : Except Err String :=
  if hasSub field "." ∧ ¬hasSub field "tab" then do
    let fa ← if hasSub field " as " then
        match pySplitOn field " as " with
        | [a, b] => Except.ok (a, some b)
        | _ => Except.error Err.valueError
      else Except.ok (field, (Option.none : Option String))
    match pySplitOn fa.1 "." with
    | [fieldname, linked] =>
      match meta doctype fieldname with
      | some linkedDoctype =>
        let f := "`tab" ++ linkedDoctype ++ "`.`" ++ linked ++ "`"
        Except.ok (match fa.2 with | some a => f ++ " " ++ a | Option.none => f)
      | Option.none => Except.error Err.attributeError
    | _ => Except.error Err.valueError
  else Except.ok field

/-- `Engine.get_fieldnames_from_child_table`: rewrite each field by
`gfcEntry`. -/
def get_fieldnames_from_child_table (doctype : String)
    (meta : String → String → Option String) (fields : List String) :
    Except Err (List String) :=
  mapME (gfcEntry doctype meta) fields

/-- Result of `get_list_fields`: the untouched passthrough (when `"*"` is an
element) or the converted field references. -/
inductive GLFOut where
  | raw (fields : List String)
  | qs (fields : List QField)

/-- One entry of the `get_list_fields` loop: empty entries are skipped; an
` as ` entry splits into exactly two parts and becomes an aliased `Field` of
the stripped name (or a `PseudoColumnMapper` of the unstripped text when it
contains a backtick); a backticked entry becomes a stripped
`PseudoColumnMapper`; anything else a plain unstripped `Field`. -/
def glfEntry (field : String) : Except Err (Option QField) :=
  if field.isEmpty then .ok Option.none
  else if hasSub field " as " then
    match pySplitOn field " as " with
    | [f, reference] =>
      if hasSub f "`" then .ok (some (.pseudoQ (f ++ " " ++ reference)))
      else .ok (some (.aliasedQ (pyStripS f) reference))
    | _ => .error .valueError
  else if hasSub field "`" then .ok (some (.pseudoQ (pyStripS field)))
  else .ok (some (.fieldQ field))

/-- `Engine.get_list_fields` from the source. -/
def get_list_fields (tbl : String) (meta : String → String → Option String)
    (fields : List String) : Except Err GLFOut := do
  if fields.contains "*" then .ok (.raw fields)
  else do
    let fields ← get_fieldnames_from_child_table tbl meta fields
    let qs ← mapME glfEntry fields
    .ok (.qs (qs.filterMap id))

/-- Result of `get_string_fields`: either a string handed through (the
wildcard or a plain field string) or a built field reference. -/
inductive GSFOut where
  | sOut (s : String)
  | qOut (f : QField)

/-- `Engine.get_string_fields` from the source (`str(PseudoColumnMapper(s))`
is modelled as `s`). -/
def get_string_fields (fields : String) : Except Err GSFOut :=
  if fields = "*" then .ok (.sOut "*")
  else if hasSub fields "`" then
    if hasSub fields " as " then
      match pySplitOn fields " as " with
      | [a, b] => .ok (.qOut (.pseudoQ (a ++ " " ++ b)))
      | _ => .error .valueError
    else .ok (.qOut (.pseudoQ fields))
  else if hasSub fields " as " then
    match pySplitOn fields " as " with
    | [a, b] => .ok (.qOut (.aliasedQ a b))
    | _ => .error .valueError
  else .ok (.sOut fields)

/-- A field specification handed to `set_fields`: a string, a list of strings
possibly containing `None`, or `None` (pre-built criterion/projection
passthroughs are outside the embedded input space). -/
inductive FieldsSpec where
  | fstr (s : String)
  | flist (xs : List (Option String))
  | fnone

/-- Python falsiness of a field spec. -/
def specFalsy : FieldsSpec → Bool
  | .fstr s => s.isEmpty
  | .flist xs => xs.isEmpty
  | .fnone => true

/-- `Engine.sanitize_fields` strips SQL comments from each field string via
`sqlparse.format(..., strip_comments=True, keyword_case="lower")` and the
MariaDB comment regex — both external collaborators.  On comment-free field
strings whose SQL keywords are already lower-case (the only field strings this
development evaluates) the pass is the identity, which is how it is
modelled. -/
def sanitize_fields (fields : FieldsSpec) : FieldsSpec := fields

/-- Result of `set_fields`: the resolved field list, or the early `None`
return (a list containing `None`). -/
inductive SetFieldsResult where
  | fieldsR (xs : List QField)
  | noneR

/-- The trailing `fields.extend(function_objects)` of `set_fields`. -/
def extendFns (xs : List QField) (fos : List FuncObj) : List QField :=
  xs ++ fos.map QField.funcQ

/-- The list continuation of `set_fields` after function extraction:
`get_list_fields` then the function-object extension. -/
def finishList (tbl : String) (meta : String → String → Option String)
    (xs : List String) (fos : List FuncObj) : Except Err (List QField) := do
  let g ← get_list_fields tbl meta xs
  match g with
  | .raw fields => .ok (extendFns (fields.map QField.strQ) fos)
  | .qs fields => .ok (extendFns fields fos)

/-- The body of `set_fields` once the spec has been normalised to a string or
a list of strings: extract function objects, strip their textual forms, split
a comma-separated string spec into a list (removing spaces in segments without
an `as` substring), resolve the remainder into field references, wrap a lone
truthy non-list result, and append the function objects. -/
def set_fields_core (tbl : String) (meta : String → String → Option String) :
    Sum String (List String) → Except Err (List QField)
  | .inl s => do
    let s := if hasSub s "`" then s else lowerStr s
    let fos ← function_objects_from_string s
    let s := remove_string_functions_str s fos
    if hasSub s "," then
      finishList tbl meta
        ((pySplitOn s ",").map (fun f => if hasSub f "as" then f else pyReplace f " ")) fos
    else do
      let g ← get_string_fields s
      match g with
      | .sOut str => .ok (extendFns (if str.isEmpty then [] else [QField.strQ str]) fos)
      | .qOut f => .ok (extendFns [f] fos)
  | .inr xs => do
    let fos ← function_objects_from_list xs
    let xs := remove_string_functions_list xs fos
    if xs.isEmpty then .ok (extendFns [] fos)
    else finishList tbl meta xs fos

/-- `Engine.set_fields` from the source: a truthy `pluck` overrides the spec;
a falsy spec falls back to `"name"`; sanitisation; a list containing `None`
returns `None` early; a one-element list collapses to its element and takes
the string path. -/
def set_fields (tbl : String) (meta : String → String → Option String)
    (spec : FieldsSpec) (kw : Kwargs) : Except Err SetFieldsResult := do
  let spec1 := match kw.pluck with
    | some p =>
      if !p.isEmpty then FieldsSpec.fstr p
      else if specFalsy spec then .fstr "name" else spec
    | Option.none => if specFalsy spec then .fstr "name" else spec
  match sanitize_fields spec1 with
  | .fstr s => (set_fields_core tbl meta (Sum.inl s)).map SetFieldsResult.fieldsR
  | .fnone => (set_fields_core tbl meta (Sum.inl "name")).map SetFieldsResult.fieldsR
  | .flist xs =>
    if xs.contains Option.none then .ok .noneR
    else
      match xs.filterMap id with
      | [x] => (set_fields_core tbl meta (Sum.inl x)).map SetFieldsResult.fieldsR
      | strs => (set_fields_core tbl meta (Sum.inr strs)).map SetFieldsResult.fieldsR

/-! ## Join planner -/

/-- Per-build join-planner state: `self.joined_tables` (a mapping from
join-type to the most recently joined child table) together with the query
object accumulating join clauses. -/
structure JoinState where
  joinedTables : List (String × String)
  crit : Conditions

/-- `self.joined_tables.get(join_type)`. -/
def lookupJoined (l : List (String × String)) (jt : String) : Option String :=
  (l.find? (fun p => p.1 = jt)).map (·.2)

/-- `self.joined_tables[join_type] = child_table`. -/
def setJoined (l : List (String × String)) (jt child : String) : List (String × String) :=
  match l with
  | [] => [(jt, child)]
  | p :: rest => if p.1 = jt then (jt, child) :: rest else p :: setJoined rest jt child

/-- `Engine.join_child_tables` from the source: when the most recently joined
child table for this join type is not this child table, emit the join clause
(`child.parent == parent.name AND child.parenttype ==
TAB_PATTERN.sub("", parent._table_name)`) and record the child table as most
recent; otherwise do nothing. -/
def join_child_tables (st : JoinState) (joinType childTable parentTable : String) : JoinState :=
  if lookupJoined st.joinedTables joinType ≠ some childTable then
    { joinedTables := setJoined st.joinedTables joinType childTable,
      crit := { st.crit with joins := st.crit.joins ++
        [{ joinType := joinType, childTable := childTable, parentTable := parentTable,
           parenttypeVal := tabStripPrefix ("tab" ++ parentTable) }] } }
  else st

/-- A sequence of join-planner invocations within one query build, as
`Engine.join` performs one per cross-entity field reference and one per extra
cached table: `(join-type, child-table, parent-table)` triples in invocation
order. -/
def join_sequence (st : JoinState) (calls : List (String × String × String)) : JoinState :=
  calls.foldl (fun st c => join_child_tables st c.1 c.2.1 c.2.2) st

/-- Number of emitted join clauses for one (join-type, child-table) pair. -/
def joinPairCount (st : JoinState) (jt child : String) : Nat :=
  st.crit.joins.countP (fun j => j.joinType == jt && j.childTable == child)

/-! ## Statement-side definitions used by the claims -/

/-- Statement-side (amended C1): the id list selected by the nested-set
algorithm.  The reference row is the first row whose identifier equals the
reference value; an absent reference row yields the empty list.  The
descendants-family verbs (`descendants of`, `not descendants of`) select the
rows with `lft` strictly greater and `rgt` strictly less than the reference's
bounds, ordered by `lft` ascending; the ancestors-family verbs select the rows
with `lft` strictly less and `rgt` strictly greater, ordered by `lft`
descending. -/
def specNestedIds (db : List NsRow) (verb ref : String) : List String :=
  match db.find? (fun r => r.name = ref) with
  | Option.none => []
  | some row =>
    if verb = "descendants of" ∨ verb = "not descendants of" then
      (sortRows (fun a b => a.lft ≤ b.lft)
        (db.filter (fun r => row.lft < r.lft ∧ r.rgt < row.rgt))).map (·.name)
    else
      (sortRows (fun a b => b.lft ≤ a.lft)
        (db.filter (fun r => r.lft < row.lft ∧ row.rgt < r.rgt))).map (·.name)

/-- Statement-side (amended C1): the membership predicate compiled for a
nested-set dict entry — `NOT IN` exactly for the `not `-prefixed verbs, over
the selected id list, with an empty id list degrading to the one-element list
containing the empty string (so that the predicate constrains the query either
way). -/
def nestedPredicateSpec (db : List NsRow) (tbl key verb ref : String) : Criterion :=
  let ids := specNestedIds db verb ref
  let vals := if ids.isEmpty then [FValue.vs ""] else ids.map FValue.vs
  if subPrefix "not ".data verb.data then .notinC (.colL tbl (.vs key)) vals
  else .isinC (.colL tbl (.vs key)) vals

/-- Statement-side (amended C2): is a dict entry the loop-breaking trigger — a
non-function string key whose value is a list/tuple headed by a hierarchy
verb? -/
def isNestedEntry (e : String × FValue) : Bool :=
  !has_function e.1 &&
  (match e.2 with
   | .ls (FValue.vs h :: _) => nestedSetHierarchy.contains h
   | _ => false)

/-- Statement-side (amended C2): how many dict entries contribute a predicate
— every entry up to and including the first nested-set entry (all of them when
none is a nested-set entry). -/
def entriesUntilNested : List (String × FValue) → Nat
  | [] => 0
  | e :: rest => if isNestedEntry e then 1 else 1 + entriesUntilNested rest

/-- Statement-side (amended C8): the ORDER BY term contributed by one comma
segment — skipped when blank after stripping; otherwise on the segment's first
whitespace-separated word, ascending exactly when the segment's second
whitespace-separated word lower-cases to `asc`, descending otherwise
(including when no second word is present). -/
def orderTermSpec (seg : String) : Option (String × Order) :=
  let t := pyStripS seg
  if t.isEmpty then Option.none
  else
    match pySplit t with
    | [] => Option.none
    | [f] => some (f, Order.desc)
    | f :: d :: _ => some (f, if lowerStr d = "asc" then Order.asc else Order.desc)

/-- Statement-side (amended C8): the ORDER BY terms of a comma-separated
multi-word orderby string, one per nonblank segment. -/
def orderTermsSpec (s : String) : List (String × Order) :=
  (pySplitOn s ",").filterMap orderTermSpec

/-- Statement-side (C9): conditions making a field-spec entry a plain field
next to the extracted `sum(amount) as total` function string — nonempty after
stripping and lower-casing, no parenthesis (also after lower-casing), no
backtick (also in the normalised form), no aliasing text, no dot, not the
wildcard, and no occurrence of the extracted function's name. -/
def plainFieldOk (f : String) : Bool :=
  let g := lowerStr (pyStripS f)
  !g.isEmpty && !hasSub f "(" && !hasSub (lowerStr f) "(" && !hasSub g "(" &&
  !hasSub f "`" && !hasSub f " as " && !hasSub g " as " && !hasSub g "`" &&
  !hasSub g "." && !hasSub g "sum" && lowerStr g != "sum" && g != "*"

/-- The function node that C9 expects for `sum(amount) as total`. -/
def sumTotalFn : FuncObj :=
  { name := "SUM", args := [FuncArg.fieldA "amount"], aliasV := some "total" }

/-- Statement-side (C9): whether a resolved field is a function reference. -/
def isFuncRef : QField → Bool
  | .funcQ _ => true
  | _ => false

/-! ## General lemmas about the shared modifiers -/

theorem orderLoop_wheres : ∀ (segs : List String) (c c' : Conditions),
    orderLoop c segs = .ok c' → c'.wheres = c.wheres := by
  intro segs
  induction segs with
  | nil =>
    intro c c' h
    simp only [orderLoop] at h
    cases h
    rfl
  | cons seg rest ih =>
    intro c c' h
    simp only [orderLoop] at h
    split at h
    · exact ih c c' h
    · cases hc : change_orderby (pyStripS seg) with
      | error e => rw [hc] at h; simp [Bind.bind, Except.bind] at h
      | ok fo =>
        rw [hc] at h
        simp only [Bind.bind, Except.bind] at h
        have := ih _ c' h
        exact this

theorem addCondRest_wheres (c : Conditions) (kw : Kwargs) :
    (addCondRest c kw).wheres = c.wheres := by
  unfold addCondRest
  cases kw.limit <;> cases kw.groupby <;> dsimp only <;> split_ifs <;> rfl

theorem addCondOrderStage_wheres (c : Conditions) (kw : Kwargs) (c1 : Conditions)
    (h : addCondOrderStage c kw = .ok c1) : c1.wheres = c.wheres := by
  cases hk : kw.orderby with
  | none => simp only [addCondOrderStage, hk] at h; cases h; rfl
  | some ob =>
    simp only [addCondOrderStage, hk] at h
    by_cases h1 : ¬ob.isEmpty ∧ ob ≠ "KEEP_DEFAULT_ORDERING"
    · rw [if_pos h1] at h
      by_cases h2 : (pySplit ob).length > 1
      · rw [if_pos h2] at h
        exact orderLoop_wheres _ _ _ h
      · rw [if_neg h2] at h; cases h; rfl
    · rw [if_neg h1] at h; cases h; rfl

theorem addCond_wheres (c : Conditions) (kw : Kwargs) (c' : Conditions)
    (h : add_conditions c kw = .ok c') : c'.wheres = c.wheres := by
  unfold add_conditions at h
  cases hs : addCondOrderStage c kw with
  | error e => rw [hs] at h; simp [Bind.bind, Except.bind] at h
  | ok c1 =>
    rw [hs] at h
    simp only [Bind.bind, Except.bind] at h
    cases h
    rw [addCondRest_wheres]
    exact addCondOrderStage_wheres c kw c1 hs

/-! ## Claim C10 -/

/-- C10: for the `in`/`not in` operator wrappers, a string operand is first
split on commas and the resulting membership test is over that list, so the
string `"a,b"` behaves like the list `["a", "b"]` and never like the single
value `"a,b"`. -/
theorem c10_in_operator_string_split (key : Lhs) (s : String) :
    func_in key (FValue.vs s) = Criterion.isinC key ((pySplitOn s ",").map FValue.vs) ∧
    func_not_in key (FValue.vs s) = Criterion.notinC key ((pySplitOn s ",").map FValue.vs) ∧
    func_in key (FValue.vs s) = func_in key (FValue.ls ((pySplitOn s ",").map FValue.vs)) ∧
    func_not_in key (FValue.vs s) =
      func_not_in key (FValue.ls ((pySplitOn s ",").map FValue.vs)) ∧
    func_in key (FValue.vs "a,b") ≠ Criterion.isinC key [FValue.vs "a,b"] := by
  refine ⟨rfl, rfl, rfl, rfl, ?_⟩
  have e : func_in key (FValue.vs "a,b") =
      Criterion.isinC key [FValue.vs "a", FValue.vs "b"] := rfl
  rw [e]
  intro h
  injection h with h1 h2
  injection h2 with h3 h4
  exact List.noConfusion h4

/-! ## Claim C4 -/

/-- C4: a scalar filter (integer or string) is compiled exactly as the dict
filter `{"name": str(v)}` — an equality on the identifier field `name` with
the scalar in string form. -/
theorem c4_scalar_shorthand (db : List NsRow) (tbl : String) (kw : Kwargs)
    (n : Int) (s : String) :
    build_conditions db tbl (.fInt n) kw =
      build_conditions db tbl (.fDict [("name", .vs (toString n))]) kw ∧
    build_conditions db tbl (.fStr s) kw =
      build_conditions db tbl (.fDict [("name", .vs s)]) kw ∧
    build_conditions db tbl (.fInt n) {} =
      .ok (.q (addWhere (get_condition tbl {})
        (.binop .eq (.colL tbl (.vs "name")) (.vs (toString n))))) ∧
    build_conditions db tbl (.fStr s) {} =
      .ok (.q (addWhere (get_condition tbl {})
        (.binop .eq (.colL tbl (.vs "name")) (.vs s)))) :=
  ⟨rfl, rfl, rfl, rfl⟩

/-! ## Claim C3 -/

/-- The concrete interleaved invocation sequence A, B, A (same join type) used
to refute C3's universal dedup invariant. -/
def c3state : JoinState :=
  join_sequence ⟨[], { fromTable := "Task" }⟩
    [("left_join", "A", "Task"), ("left_join", "B", "Task"), ("left_join", "A", "Task")]

/-- C3 counterexample: invoking the join planner with child tables A, B, A (all
with the same join type) within one build emits TWO join clauses for the pair
(`left_join`, A) — the claimed per-pair dedup invariant fails because only the
most recently joined child table is remembered per join type. -/
theorem c3_counterexample :
    joinPairCount c3state "left_join" "A" = 2 ∧
    ¬joinPairCount c3state "left_join" "A" ≤ 1 ∧
    c3state.crit.joins.length = 3 := by
  refine ⟨by decide, by decide, by decide⟩

theorem lookup_setJoined : ∀ (l : List (String × String)) (jt ct : String),
    lookupJoined (setJoined l jt ct) jt = some ct := by
  intro l jt ct
  induction l with
  | nil => simp [setJoined, lookupJoined]
  | cons p rest ih =>
    by_cases hp : p.1 = jt
    · simp [setJoined, hp, lookupJoined, List.find?]
    · simp only [setJoined, if_neg hp]
      simp only [lookupJoined, List.find?] at ih ⊢
      rw [show (decide (p.1 = jt)) = false by simp [hp]]
      exact ih

/-- C3 amended: the join planner deduplicates only against the most recently
joined child table per join type — invoking `join_child_tables` twice in a row
with the same (join-type, child-table) pair emits the join clause exactly once
(the second call is a no-op), but a duplicate pair can emit a second clause
after a different child table was joined in between with the same join type. -/
theorem c3_join_idempotent (st : JoinState) (jt ct pt : String) :
    join_child_tables (join_child_tables st jt ct pt) jt ct pt =
      join_child_tables st jt ct pt := by
  have key : lookupJoined (join_child_tables st jt ct pt).joinedTables jt = some ct := by
    by_cases h : lookupJoined st.joinedTables jt ≠ some ct
    · rw [join_child_tables, if_pos h]
      exact lookup_setJoined _ _ _
    · rw [join_child_tables, if_neg h]
      exact not_ne_iff.mp h
  set st1 := join_child_tables st jt ct pt with hst1
  rw [join_child_tables, if_neg (not_ne_iff.mpr key)]

/-! ## Claim C5 -/

theorem get_condition_fields (tbl : String) (kw : Kwargs) :
    (get_condition tbl kw).wheres = [] ∧ (get_condition tbl kw).fromTable = stripQuotes tbl := by
  unfold get_condition
  split_ifs <;> exact ⟨rfl, rfl⟩

/-- C5: a dict entry whose value is `None` compiles to a null test (`field IS
NULL`) on the FROM table's column — the query's only predicate is the
`isnull` criterion, which is a different construct from an equality comparison
against `None`. -/
theorem c5_none_is_null (db : List NsRow) (tbl key : String) (kw : Kwargs) (q : Conditions)
    (hk : has_function key = false)
    (hq : dict_query db tbl [(key, FValue.nullv)] kw = .ok q) :
    q.wheres = [Criterion.isNullC (.colL (stripQuotes tbl) (.vs key))] ∧
    Criterion.isNullC (.colL (stripQuotes tbl) (.vs key)) ≠
      Criterion.binop .eq (.colL (stripQuotes tbl) (.vs key)) FValue.nullv := by
  refine ⟨?_, by intro h; exact Criterion.noConfusion h⟩
  have step : dict_query db tbl [(key, FValue.nullv)] kw =
      (do
        let conditions ← dictLoop db tbl (get_condition tbl kw) [(Sum.inl key, FValue.nullv)]
        add_conditions conditions kw) := by
    simp [dict_query, prepKey, hk, boolCoerce, mapME,
      Functor.map, Except.map, Bind.bind, Except.bind, pure, Except.pure]
  rw [step] at hq
  by_cases hu : (get_condition tbl kw).updateMode = true ∨ (get_condition tbl kw).intoMode = true
  · simp [dictLoop, hu, Bind.bind, Except.bind] at hq
  · have hloop : dictLoop db tbl (get_condition tbl kw) [(Sum.inl key, FValue.nullv)] =
        .ok (addWhere (get_condition tbl kw)
          (.isNullC (.colL (get_condition tbl kw).fromTable (.vs key)))) := by
      simp [dictLoop, hu]
    rw [hloop] at hq
    simp only [Bind.bind, Except.bind] at hq
    have hw := addCond_wheres _ _ _ hq
    rw [hw]
    simp [addWhere, (get_condition_fields tbl kw).1, (get_condition_fields tbl kw).2]

/-- Concrete query used by the C5 witness. -/
def c5q : Conditions :=
  addWhere (get_condition "User" {})
    (.isNullC (.colL (stripQuotes "User") (.vs "status")))

theorem c5_witness :
    c5q.wheres = [Criterion.isNullC (.colL (stripQuotes "User") (.vs "status"))] ∧
    Criterion.isNullC (.colL (stripQuotes "User") (.vs "status")) ≠
      Criterion.binop .eq (.colL (stripQuotes "User") (.vs "status")) FValue.nullv :=
  c5_none_is_null [] "User" "status" {} c5q (by decide) rfl

/-! ## Claim C6 -/

/-- What `misc_query` does with a single 3-tuple filter once the operator
token has been looked up: an unknown token is a KeyError; a known one builds
the predicate and applies the shared modifiers. -/
def miscAfterLookup (_db : List NsRow) (tbl : String) (kw : Kwargs) (f v : FValue) :
    Option Op → Except Err QResult
  | Option.none => .error .keyError
  | some op => do
    let c ← applyOp op (.fieldL f) v
    (add_conditions (addWhere (get_condition tbl kw) c) kw).map QResult.q

theorem c6_misc_eq (db : List NsRow) (tbl : String) (kw : Kwargs) (f v : FValue) (t : String) :
    misc_query db tbl true [FValue.ls [f, .vs t, v]] kw =
      miscAfterLookup db tbl kw f v (lookupOp (lowerStr t)) := by
  cases hl : lookupOp (lowerStr t) with
  | none =>
    simp [misc_query, miscLoop, getEl, hl, miscAfterLookup, Bind.bind, Except.bind]
  | some op =>
    cases hc : applyOp op (Lhs.fieldL f) v with
    | error e =>
      simp [misc_query, miscLoop, getEl, hl, hc, miscAfterLookup, Bind.bind, Except.bind,
        pure, Except.pure]
    | ok c =>
      simp [misc_query, miscLoop, getEl, hl, hc, miscAfterLookup, Bind.bind, Except.bind,
        pure, Except.pure]

/-- C6: the operator token of a tuple filter or of a dict `(operator, operand)`
pair is looked up after casefolding, so any two tokens with the same casefold
compile identically; a token absent from the operator table makes the build
raise (KeyError) at once, returning no query object — shown for the
list-filter path and, for a token that is not a hierarchy verb, for the
dict-filter path. -/
theorem c6_operator_lookup :
    (∀ t1 t2 : String, lowerStr t1 = lowerStr t2 →
      ∀ (db : List NsRow) (tbl : String) (kw : Kwargs) (f v : FValue),
        misc_query db tbl true [FValue.ls [f, .vs t1, v]] kw =
          misc_query db tbl true [FValue.ls [f, .vs t2, v]] kw) ∧
    (∀ t : String, lookupOp (lowerStr t) = Option.none →
      ∀ (db : List NsRow) (tbl key : String) (kw : Kwargs) (f v : FValue),
        misc_query db tbl true [FValue.ls [f, .vs t, v]] kw = .error .keyError ∧
        (has_function key = false → nestedSetHierarchy.contains t = false →
          dict_query db tbl [(key, FValue.ls [.vs t, v])] kw = .error .keyError)) := by
  constructor
  · intro t1 t2 h db tbl kw f v
    rw [c6_misc_eq db tbl kw f v t1, c6_misc_eq db tbl kw f v t2, h]
  · intro t hnone db tbl key kw f v
    constructor
    · rw [c6_misc_eq db tbl kw f v t, hnone]
      rfl
    · intro hk hverb
      have hverb2 : ¬(t ∈ nestedSetHierarchy) := by simpa using hverb
      simp [dict_query, prepKey, hk, boolCoerce, mapME,
        Functor.map, Except.map, dictLoop, getEl, isNestedVerbV, hverb2, hnone,
        Bind.bind, Except.bind, pure, Except.pure]

/-- Concrete inputs exercising C6: `LIKE` and `like` compile identically, and
the unknown token `frobnicate` aborts both the list-filter and the dict-filter
build with an error. -/
theorem c6_witness :
    misc_query [] "Task" true [FValue.ls [.vs "status", .vs "LIKE", .vs "x"]] {} =
      misc_query [] "Task" true [FValue.ls [.vs "status", .vs "like", .vs "x"]] {} ∧
    misc_query [] "Task" true [FValue.ls [.vs "status", .vs "frobnicate", .vs "x"]] {} =
      .error .keyError ∧
    dict_query [] "Task" [("status", FValue.ls [.vs "frobnicate", .vs "x"])] {} =
      .error .keyError :=
  ⟨c6_operator_lookup.1 "LIKE" "like" (by decide) [] "Task" {}
      (FValue.vs "status") (FValue.vs "x"),
   (c6_operator_lookup.2 "frobnicate" (by decide) [] "Task" "status" {}
      (FValue.vs "status") (FValue.vs "x")).1,
   (c6_operator_lookup.2 "frobnicate" (by decide) [] "Task" "status" {}
      (FValue.vs "status") (FValue.vs "x")).2 (by decide) (by decide)⟩

/-! ## Claim C7 -/

/-- Is a list-filter element a bare element (neither list/tuple nor dict)? -/
def isBareFV : FValue → Bool
  | .ls _ => false
  | .dictv _ => false
  | _ => true

/-- C7: when the `misc_query` loop meets a bare element, it compiles ONE
positional predicate from the whole outer list's first three elements
(`filters[0]`, `filters[1]`, `filters[2]`) and breaks out of the loop — the
result does not depend on any entry after the bare element. -/
theorem c7_bare_shorthand (db : List NsRow) (tbl : String) (kw : Kwargs)
    (original : List FValue) (conditions : Conditions) (bare : FValue) (rest : List FValue)
    (f0 opTok : String) (op : Op) (v2 : FValue) (c : Criterion)
    (hbare : isBareFV bare = true)
    (h0 : original[0]? = some (FValue.vs f0))
    (h1 : original[1]? = some (FValue.vs opTok))
    (hop : lookupOp (lowerStr opTok) = some op)
    (h2 : original[2]? = some v2)
    (hc : applyOp op (.fieldL (.vs f0)) v2 = .ok c) :
    miscLoop db tbl kw original conditions (bare :: rest) =
      .ok (.q (addWhere conditions c)) ∧
    ∀ rest' : List FValue,
      miscLoop db tbl kw original conditions (bare :: rest') =
        miscLoop db tbl kw original conditions (bare :: rest) := by
  have e0 : getEl original 0 = .ok (FValue.vs f0) := by simp [getEl, h0]
  have e1 : getEl original 1 = .ok (FValue.vs opTok) := by simp [getEl, h1]
  have e2 : getEl original 2 = .ok v2 := by simp [getEl, h2]
  have main : ∀ r : List FValue,
      miscLoop db tbl kw original conditions (bare :: r) =
        .ok (.q (addWhere conditions c)) := by
    intro r
    cases bare
    case ls l => exact absurd hbare (by simp [isBareFV])
    case dictv l => exact absurd hbare (by simp [isBareFV])
    all_goals
      simp [miscLoop, e0, e1, e2, hop, hc, Bind.bind, Except.bind]
  exact ⟨main rest, fun rest' => (main rest').trans (main rest).symm⟩

theorem c7_witness :
    miscLoop [] "Task" {} [FValue.vs "status", .vs "=", .vs "Open"]
        (get_condition "Task" {}) [FValue.vs "status", .vs "=", .vs "Open"] =
      .ok (.q (addWhere (get_condition "Task" {})
        (.binop .eq (.fieldL (.vs "status")) (.vs "Open")))) :=
  (c7_bare_shorthand [] "Task" {} [FValue.vs "status", .vs "=", .vs "Open"]
    (get_condition "Task" {}) (FValue.vs "status") [FValue.vs "=", FValue.vs "Open"]
    "status" "=" .eq (FValue.vs "Open")
    (.binop .eq (.fieldL (.vs "status")) (.vs "Open"))
    (by decide) rfl rfl (by decide) rfl rfl).1

/-! ## Claim C1 -/

/-- The nested-set reference table used by the C1 counterexample: `X` has
bounds (2, 9); `D` lies strictly inside them; `A` strictly encloses them. -/
def c1db : List NsRow := [⟨"X", 2, 9⟩, ⟨"D", 3, 4⟩, ⟨"A", 1, 10⟩]

/-- C1 counterexample: `not ancestors of` queries the ANCESTOR range (rows
strictly enclosing the reference's bounds — here `A`), not the descendant
range (`D`) the claim asserts, and `descendants of` queries the descendant
range; moreover an empty result under a `not`-prefixed verb compiles to
`NOT IN ("")`, not the claimed `IN ("")`. -/
theorem c1_counterexample :
    get_nested_set_hierarchy_result c1db "not ancestors of" (FValue.vs "X") "T" = ["A"] ∧
    get_nested_set_hierarchy_result c1db "descendants of" (FValue.vs "X") "T" = ["D"] ∧
    (["A"] : List String) ≠ ["D"] ∧
    dict_query [] "T" [("f", FValue.ls [.vs "not descendants of", .vs "X"])] {} =
      .ok (addWhere (get_condition "T" {})
        (.notinC (.colL "T" (.vs "f")) [FValue.vs ""])) ∧
    Criterion.notinC (.colL "T" (.vs "f")) [FValue.vs ""] ≠
      Criterion.isinC (.colL "T" (.vs "f")) [FValue.vs ""] :=
  ⟨rfl, rfl, by decide, rfl, by intro h; exact Criterion.noConfusion h⟩

theorem specNestedIds_eq (db : List NsRow) (tbl ref verb : String) :
    specNestedIds db verb ref = get_nested_set_hierarchy_result db verb (FValue.vs ref) tbl :=
  rfl

theorem c1_loop_core (db : List NsRow) (tbl key ref verb : String)
    (hcont : isNestedVerbV (FValue.vs verb) = true)
    (hopsel : decide (verb = "not ancestors of" ∨ verb = "not descendants of") =
              subPrefix "not ".data verb.data) :
    dictLoop db tbl (get_condition tbl {}) [(Sum.inl key, FValue.ls [.vs verb, .vs ref])] =
      .ok (addWhere (get_condition tbl {}) (nestedPredicateSpec db tbl key verb ref)) := by
  cases hsub : subPrefix "not ".data verb.data with
  | true =>
    have hP : verb = "not ancestors of" ∨ verb = "not descendants of" :=
      of_decide_eq_true (by rw [hopsel, hsub])
    by_cases hres : (get_nested_set_hierarchy_result db verb (FValue.vs ref) tbl).isEmpty
    · simp [dictLoop, getEl, hcont, if_pos hP, hres, applyOp, func_not_in,
        nestedPredicateSpec, specNestedIds_eq db tbl ref verb, hsub,
        Bind.bind, Except.bind, pure, Except.pure]
    · simp [dictLoop, getEl, hcont, if_pos hP, hres, applyOp, func_not_in,
        nestedPredicateSpec, specNestedIds_eq db tbl ref verb, hsub,
        Bind.bind, Except.bind, pure, Except.pure]
  | false =>
    have hP : ¬(verb = "not ancestors of" ∨ verb = "not descendants of") :=
      of_decide_eq_false (by rw [hopsel, hsub])
    by_cases hres : (get_nested_set_hierarchy_result db verb (FValue.vs ref) tbl).isEmpty
    · simp [dictLoop, getEl, hcont, if_neg hP, hres, applyOp, func_in,
        nestedPredicateSpec, specNestedIds_eq db tbl ref verb, hsub,
        Bind.bind, Except.bind, pure, Except.pure]
    · simp [dictLoop, getEl, hcont, if_neg hP, hres, applyOp, func_in,
        nestedPredicateSpec, specNestedIds_eq db tbl ref verb, hsub,
        Bind.bind, Except.bind, pure, Except.pure]

/-- C1 amended: a dict entry `(verb, ref)` with a hierarchy verb compiles to a
membership test over the pre-computed id list: the `not `-prefixed verbs
negate the membership test (`NOT IN`) but query the SAME hierarchy side as
their unprefixed counterparts — the descendants-family verbs the descendant
range (`lft` strictly greater, `rgt` strictly less, ordered by `lft`
ascending), the ancestors-family verbs the ancestor range (`lft` strictly
less, `rgt` strictly greater, ordered by `lft` descending) — and when the
reference row does not exist or the range query returns no rows, the id list
degrades to `("")`, giving `IN ("")` for the plain verbs and `NOT IN ("")` for
the `not`-prefixed verbs, so the query is constrained either way. -/
theorem c1_nested_set_amended (db : List NsRow) (tbl key ref verb : String)
    (hv : verb ∈ nestedSetHierarchy) (hk : has_function key = false) :
    dict_query db tbl [(key, FValue.ls [.vs verb, .vs ref])] {} =
      .ok (addWhere (get_condition tbl {}) (nestedPredicateSpec db tbl key verb ref)) := by
  have hv4 : verb = "ancestors of" ∨ verb = "descendants of" ∨
      verb = "not ancestors of" ∨ verb = "not descendants of" := by
    simpa [nestedSetHierarchy] using hv
  have hcont : isNestedVerbV (FValue.vs verb) = true := by
    rcases hv4 with rfl | rfl | rfl | rfl <;> decide
  have hopsel : decide (verb = "not ancestors of" ∨ verb = "not descendants of") =
      subPrefix "not ".data verb.data := by
    rcases hv4 with rfl | rfl | rfl | rfl <;> decide
  have step : dict_query db tbl [(key, FValue.ls [.vs verb, .vs ref])] {} =
      (do
        let conditions ← dictLoop db tbl (get_condition tbl {})
          [(Sum.inl key, FValue.ls [.vs verb, .vs ref])]
        add_conditions conditions {}) := by
    simp [dict_query, prepKey, hk, boolCoerce, mapME,
      Functor.map, Except.map, Bind.bind, Except.bind, pure, Except.pure]
  rw [step, c1_loop_core db tbl key ref verb hcont hopsel]
  rfl

theorem c1_witness :
    dict_query c1db "T" [("f", FValue.ls [.vs "descendants of", .vs "X"])] {} =
      .ok (addWhere (get_condition "T" {})
        (nestedPredicateSpec c1db "T" "f" "descendants of" "X")) :=
  c1_nested_set_amended c1db "T" "f" "X" "descendants of" (by decide) (by decide)

/-! ## Claim C2 -/

/-- Number of entries the `dictLoop` processes on a preprocessed entry list:
everything up to and including the first nested-set entry under a plain string
key. -/
def entriesUntilNestedP : List (Sum String FuncObj × FValue) → Nat
  | [] => 0
  | (key, v) :: rest =>
    match key with
    | .inr _ => 1 + entriesUntilNestedP rest
    | .inl _ =>
      if (match v with
          | FValue.ls (FValue.vs h :: _) => nestedSetHierarchy.contains h
          | _ => false) then 1
      else 1 + entriesUntilNestedP rest

theorem bind_addWhere_len (db : List NsRow) (tbl : String) (x : Except Err Criterion)
    (conditions q : Conditions) (rest : List (Sum String FuncObj × FValue))
    (ih : ∀ c2 q2 : Conditions, dictLoop db tbl c2 rest = .ok q2 →
      q2.wheres.length = c2.wheres.length + entriesUntilNestedP rest)
    (h : (do
        let c ← x
        dictLoop db tbl (addWhere conditions c) rest) = .ok q) :
    q.wheres.length = conditions.wheres.length + (1 + entriesUntilNestedP rest) := by
  cases x with
  | error e => simp [Bind.bind, Except.bind] at h
  | ok crit =>
    simp only [Bind.bind, Except.bind] at h
    have hlen := ih _ _ h
    simp [addWhere] at hlen
    omega

theorem dictLoop_len (db : List NsRow) (tbl : String) :
    ∀ (entries : List (Sum String FuncObj × FValue)) (conditions q : Conditions),
      dictLoop db tbl conditions entries = .ok q →
      q.wheres.length = conditions.wheres.length + entriesUntilNestedP entries := by
  intro entries
  induction entries with
  | nil =>
    intro c q h
    simp only [dictLoop] at h
    cases h
    simp [entriesUntilNestedP]
  | cons e rest ih =>
    intro c q h
    obtain ⟨key, v⟩ := e
    cases key with
    | inr fo =>
      simp only [dictLoop] at h
      exact bind_addWhere_len db tbl _ c q rest ih h
    | inl k =>
      cases v with
      | nullv =>
        simp only [dictLoop] at h
        by_cases hu : c.updateMode = true ∨ c.intoMode = true
        · rw [if_pos hu] at h; simp at h
        · rw [if_neg hu] at h
          have hlen := ih _ _ h
          simp [addWhere] at hlen
          show q.wheres.length = c.wheres.length + (1 + entriesUntilNestedP rest)
          omega
      | vs s =>
        simp only [dictLoop] at h
        exact bind_addWhere_len db tbl _ c q rest ih h
      | vi n =>
        simp only [dictLoop] at h
        exact bind_addWhere_len db tbl _ c q rest ih h
      | vb b =>
        simp only [dictLoop] at h
        exact bind_addWhere_len db tbl _ c q rest ih h
      | dictv kvs =>
        simp only [dictLoop] at h
        exact bind_addWhere_len db tbl _ c q rest ih h
      | fobj fo2 =>
        simp only [dictLoop] at h
        exact bind_addWhere_len db tbl _ c q rest ih h
      | ls vlist =>
        simp only [dictLoop] at h
        cases vlist with
        | nil => simp [getEl, Bind.bind, Except.bind] at h
        | cons v0 tail =>
          have hg : getEl (v0 :: tail) 0 = .ok v0 := by simp [getEl]
          rw [hg] at h
          simp only [Bind.bind, Except.bind] at h
          by_cases hn : isNestedVerbV v0 = true
          · rw [if_pos hn] at h
            cases v0 with
            | vs hverb =>
              have hPc : entriesUntilNestedP
                  ((Sum.inl k, FValue.ls (FValue.vs hverb :: tail)) :: rest) = 1 := by
                simp only [entriesUntilNestedP]
                rw [if_pos]
                simpa [isNestedVerbV] using hn
              rw [hPc]
              cases tail with
              | nil => simp at h
              | cons fv tail2 =>
                cases tail2 with
                | cons g tail3 => simp at h
                | nil =>
                  dsimp only at h
                  by_cases hres :
                      (get_nested_set_hierarchy_result db hverb fv tbl).isEmpty = true
                  · rw [if_pos hres] at h
                    by_cases hsel : hverb = "not ancestors of" ∨ hverb = "not descendants of"
                    · rw [if_pos hsel] at h
                      simp [applyOp, func_not_in, Bind.bind, Except.bind] at h
                      rw [← h]
                      simp [addWhere]
                    · rw [if_neg hsel] at h
                      simp [applyOp, func_in, Bind.bind, Except.bind] at h
                      rw [← h]
                      simp [addWhere]
                  · rw [if_neg hres] at h
                    by_cases hsel : hverb = "not ancestors of" ∨ hverb = "not descendants of"
                    · rw [if_pos hsel] at h
                      simp [applyOp, func_not_in, Bind.bind, Except.bind] at h
                      rw [← h]
                      simp [addWhere]
                    · rw [if_neg hsel] at h
                      simp [applyOp, func_in, Bind.bind, Except.bind] at h
                      rw [← h]
                      simp [addWhere]
            | vi n => simp [isNestedVerbV] at hn
            | vb b => simp [isNestedVerbV] at hn
            | nullv => simp [isNestedVerbV] at hn
            | ls l2 => simp [isNestedVerbV] at hn
            | dictv l2 => simp [isNestedVerbV] at hn
            | fobj fo2 => simp [isNestedVerbV] at hn
          · rw [if_neg hn] at h
            have hPc : entriesUntilNestedP
                ((Sum.inl k, FValue.ls (v0 :: tail)) :: rest) =
                1 + entriesUntilNestedP rest := by
              simp only [entriesUntilNestedP]
              rw [if_neg]
              cases v0 <;> simp [isNestedVerbV] at hn ⊢ <;> simp [hn]
            rw [hPc]
            cases v0 with
            | vs tok =>
              dsimp only at h
              cases hl : lookupOp (lowerStr tok) with
              | none => rw [hl] at h; simp at h
              | some op =>
                rw [hl] at h
                dsimp only at h
                cases hg1 : getEl (FValue.vs tok :: tail) 1 with
                | error e2 => rw [hg1] at h; simp at h
                | ok v1 =>
                  rw [hg1] at h
                  dsimp only at h
                  exact bind_addWhere_len db tbl _ c q rest ih h
            | vi n => simp [Bind.bind, Except.bind] at h
            | vb b => simp [Bind.bind, Except.bind] at h
            | nullv => simp [Bind.bind, Except.bind] at h
            | ls l2 => simp [Bind.bind, Except.bind] at h
            | dictv l2 => simp [Bind.bind, Except.bind] at h
            | fobj fo2 => simp [Bind.bind, Except.bind] at h

theorem nested_match_boolCoerce (v : FValue) :
    (match boolCoerce v with
     | FValue.ls (FValue.vs h :: _) => nestedSetHierarchy.contains h
     | _ => false) =
    (match v with
     | FValue.ls (FValue.vs h :: _) => nestedSetHierarchy.contains h
     | _ => false) := by
  cases v <;> rfl

theorem prep_count : ∀ (fs : List (String × FValue))
    (ps : List (Sum String FuncObj × FValue)),
    mapME (fun kv => do
        let k ← prepKey kv.1
        pure (k, kv.2)) (fs.map (fun kv => (kv.1, boolCoerce kv.2))) = .ok ps →
    entriesUntilNestedP ps = entriesUntilNested fs := by
  intro fs
  induction fs with
  | nil =>
    intro ps h
    simp only [List.map_nil, mapME] at h
    cases h
    rfl
  | cons kv rest ih =>
    intro ps h
    simp only [List.map_cons, mapME] at h
    generalize hM : mapME (fun kv => do
        let k ← prepKey kv.1
        pure (k, kv.2)) (rest.map (fun kv => (kv.1, boolCoerce kv.2))) = M at h
    cases hp : prepKey kv.1 with
    | error e =>
      simp only [hp] at h
      simp [Bind.bind, Except.bind, pure, Except.pure] at h
    | ok k1 =>
      simp only [hp] at h
      cases M with
      | error e => simp [Bind.bind, Except.bind, pure, Except.pure] at h
      | ok ys =>
        simp only [Bind.bind, Except.bind, pure, Except.pure] at h
        cases h
        have hr := ih ys hM
        cases k1 with
        | inr fo =>
          have hf : has_function kv.1 = true := by
            by_cases hb : has_function kv.1 = true
            · exact hb
            · simp [prepKey, hb] at hp
          simp only [entriesUntilNestedP, entriesUntilNested, isNestedEntry, hf, hr]
          simp
        | inl k0 =>
          have hf : has_function kv.1 = false := by
            by_cases hb : has_function kv.1 = true
            · simp only [prepKey, hb, if_pos] at hp
              cases hgo : get_function_object kv.1 with
              | error e => rw [hgo] at hp; simp [Except.map] at hp
              | ok fo => rw [hgo] at hp; simp [Except.map] at hp
            · simpa using hb
          simp only [entriesUntilNestedP, entriesUntilNested, isNestedEntry, hf,
            nested_match_boolCoerce, hr]
          simp [Bool.true_and]

/-- C2 amended: within one dict filter, every key/value pair up to and
including the FIRST nested-set hierarchy entry contributes exactly one
predicate, all ANDed onto the same WHERE chain (the `wheres` list) with no OR
combination except inside the nested-set `IN` expansion; the nested-set branch
breaks out of the loop, so entries after the first nested-set entry are
skipped.  When no entry is a nested-set filter, every key/value pair
contributes exactly one predicate. -/
theorem c2_dict_predicate_count :
    (∀ (db : List NsRow) (tbl : String) (fs : List (String × FValue)) (kw : Kwargs)
        (q : Conditions), dict_query db tbl fs kw = .ok q →
          q.wheres.length = entriesUntilNested fs) ∧
    (∀ fs : List (String × FValue), fs.all (fun e => !isNestedEntry e) = true →
        entriesUntilNested fs = fs.length) := by
  constructor
  · intro db tbl fs kw q h
    cases fs with
    | nil =>
      simp only [dict_query, List.isEmpty_nil, if_pos] at h
      have := addCond_wheres _ _ _ h
      rw [show entriesUntilNested [] = 0 from rfl]
      rw [this, (get_condition_fields tbl kw).1]
      rfl
    | cons e rest =>
      simp only [dict_query, List.isEmpty_cons] at h
      generalize hM : mapME (fun kv => do
          let k ← prepKey kv.1
          pure (k, kv.2)) ((e :: rest).map (fun kv => (kv.1, boolCoerce kv.2))) = M at h
      cases M with
      | error er => simp [Bind.bind, Except.bind] at h
      | ok ps =>
        simp only [Bind.bind, Except.bind] at h
        cases hd : dictLoop db tbl (get_condition tbl kw) ps with
        | error er => rw [hd] at h; simp at h
        | ok q1 =>
          rw [hd] at h
          simp only at h
          have h1 := addCond_wheres _ _ _ h
          have h2 := dictLoop_len db tbl ps (get_condition tbl kw) q1 hd
          have h3 := prep_count (e :: rest) ps hM
          rw [h1, h2, (get_condition_fields tbl kw).1, h3]
          simp
  · intro fs hall
    induction fs with
    | nil => rfl
    | cons e rest ih =>
      simp only [List.all_cons, Bool.and_eq_true] at hall
      have he : isNestedEntry e = false := by
        cases hb : isNestedEntry e
        · rfl
        · rw [hb] at hall; simp at hall
      simp only [entriesUntilNested, he, List.length_cons]
      rw [ih hall.2]
      simp [Nat.add_comm]

/-- C2 counterexample: in a two-entry dict whose first entry is a nested-set
filter, the second entry is skipped — the compiled query carries ONE
predicate, not one per entry. -/
theorem c2_counterexample :
    dict_query [] "T" [("a", FValue.ls [.vs "descendants of", .vs "X"]),
        ("b", FValue.vs "y")] {} =
      .ok (addWhere (get_condition "T" {})
        (.isinC (.colL "T" (.vs "a")) [FValue.vs ""])) ∧
    (addWhere (get_condition "T" {})
      (.isinC (.colL "T" (.vs "a")) [FValue.vs ""])).wheres.length = 1 ∧
    [("a", FValue.ls [FValue.vs "descendants of", FValue.vs "X"]),
      ("b", FValue.vs "y")].length = 2 ∧
    (1 : Nat) ≠ 2 :=
  ⟨rfl, rfl, rfl, by decide⟩

/-- The concrete two-entry dict used by the C2 witness. -/
def c2fs : List (String × FValue) :=
  [("a", FValue.vs "x"), ("b", FValue.nullv)]

/-- The query the C2 witness's dict filter compiles to. -/
def c2q : Conditions :=
  addWhere (addWhere (get_condition "T" {})
    (.binop .eq (.colL "T" (.vs "a")) (.vs "x")))
    (.isNullC (.colL (stripQuotes "T") (.vs "b")))

theorem c2_witness :
    c2q.wheres.length = entriesUntilNested c2fs ∧
    entriesUntilNested c2fs = c2fs.length :=
  ⟨c2_dict_predicate_count.1 [] "T" c2fs {} c2q rfl,
   c2_dict_predicate_count.2 c2fs (by decide)⟩

/-! ## Claim C8 -/

theorem dropWhile_head_false (p : Char → Bool) :
    ∀ (l r : List Char) (c : Char), l.dropWhile p = c :: r → p c = false := by
  intro l
  induction l with
  | nil => intro r c h; simp at h
  | cons x xs ih =>
    intro r c h
    by_cases hp : p x = true
    · rw [List.dropWhile_cons_of_pos hp] at h
      exact ih r c h
    · rw [List.dropWhile_cons_of_neg hp] at h
      cases h
      simpa using hp

theorem dropEndWhile_head (p : Char → Bool) :
    ∀ (l r : List Char) (c : Char), dropEndWhile p l = c :: r → ∃ r2, l = c :: r2 := by
  intro l
  induction l with
  | nil => intro r c h; simp [dropEndWhile] at h
  | cons x xs ih =>
    intro r c h
    simp only [dropEndWhile] at h
    cases hd : dropEndWhile p xs with
    | nil =>
      rw [hd] at h
      by_cases hp : p x = true
      · rw [if_pos hp] at h
        simp at h
      · rw [if_neg hp] at h
        cases h
        exact ⟨xs, rfl⟩
    | cons y ys =>
      rw [hd] at h
      cases h
      exact ⟨xs, rfl⟩

theorem wsTokensGo_ne_nil : ∀ (cs cur : List Char), cur ≠ [] → wsTokensGo cur cs ≠ [] := by
  intro cs
  induction cs with
  | nil =>
    intro cur hc
    simp only [wsTokensGo]
    rw [if_neg (by simpa using hc)]
    simp
  | cons c cs2 ih =>
    intro cur hc
    simp only [wsTokensGo]
    by_cases hw : c.isWhitespace = true
    · rw [if_pos hw, if_neg (by simpa using hc)]
      simp
    · rw [if_neg hw]
      exact ih (c :: cur) (by simp)

theorem pySplit_strip_ne (seg : String) (h : ¬(pyStripS seg).isEmpty = true) :
    pySplit (pyStripS seg) ≠ [] := by
  have hne : (pyStripS seg).data ≠ [] := by
    intro hd
    apply h
    rw [String.isEmpty_iff]
    cases hs : pyStripS seg with
    | mk l => rw [hs] at hd; simp at hd; rw [hd]
  cases hd : (pyStripS seg).data with
  | nil => exact absurd hd hne
  | cons c r =>
    have hdw : dropEndWhile Char.isWhitespace (seg.data.dropWhile Char.isWhitespace) =
        c :: r := hd
    obtain ⟨r2, hr2⟩ := dropEndWhile_head Char.isWhitespace _ r c hdw
    have hcw : c.isWhitespace = false := dropWhile_head_false Char.isWhitespace _ r2 c hr2
    simp only [pySplit, hd]
    intro hcon
    have : wsTokensGo [] (c :: r) = [] := by simpa using hcon
    rw [wsTokensGo] at this
    rw [if_neg (by simp [hcw])] at this
    exact wsTokensGo_ne_nil r [c] (by simp) this

theorem orderLoop_spec : ∀ (segs : List String) (c : Conditions),
    orderLoop c segs =
      .ok { c with orderbys := c.orderbys ++ segs.filterMap orderTermSpec } := by
  intro segs
  induction segs with
  | nil =>
    intro c
    rw [List.filterMap_nil, List.append_nil]
    rfl
  | cons seg rest ih =>
    intro c
    simp only [orderLoop, List.filterMap_cons]
    by_cases ht : (pyStripS seg).isEmpty = true
    · rw [if_pos ht]
      have hnone : orderTermSpec seg = Option.none := by
        simp only [orderTermSpec]
        rw [if_pos ht]
      rw [hnone]
      exact ih c
    · rw [if_neg ht]
      have hne := pySplit_strip_ne seg ht
      cases hsp : pySplit (pyStripS seg) with
      | nil => exact absurd hsp hne
      | cons f ds =>
        cases ds with
        | nil =>
          have hco : change_orderby (pyStripS seg) = .ok (f, Order.desc) := by
            simp only [change_orderby, hsp]
          have hts : orderTermSpec seg = some (f, Order.desc) := by
            simp only [orderTermSpec]
            rw [if_neg ht, hsp]
          rw [hts]
          simp only [Bind.bind, Except.bind, hco]
          exact (ih _).trans (by simp)
        | cons d ds2 =>
          have hco : change_orderby (pyStripS seg) =
              .ok (f, if lowerStr d = "asc" then Order.asc else Order.desc) := by
            simp only [change_orderby, hsp]
          have hts : orderTermSpec seg =
              some (f, if lowerStr d = "asc" then Order.asc else Order.desc) := by
            simp only [orderTermSpec]
            rw [if_neg ht, hsp]
          rw [hts]
          simp only [Bind.bind, Except.bind, hco]
          exact (ih _).trans (by simp)

/-- C8 amended: when the orderby option string contains MORE THAN ONE
whitespace-separated word, each comma-separated segment that is nonblank after
stripping produces its own ORDER BY term on the segment's first
whitespace-separated word, ascending exactly when the segment's SECOND
whitespace-separated word lower-cases to `asc` and descending otherwise; an
orderby string with at most one whitespace-separated word (such as `"a,b"`
without spaces) is NOT split on commas and produces a single ORDER BY term on
the entire string with the `order` option's direction (default descending). -/
theorem c8_orderby_amended (conditions : Conditions) (s : String) (kwOrder : Option Order)
    (h : (pySplit s).length > 1) :
    add_conditions conditions { orderby := some s, order := kwOrder } =
      .ok (addCondRest { conditions with
        orderbys := conditions.orderbys ++ orderTermsSpec s }
        { orderby := some s, order := kwOrder }) ∧
    (∀ s2 : String, (pySplit s2).length ≤ 1 → s2.isEmpty = false →
      s2 ≠ "KEEP_DEFAULT_ORDERING" →
      add_conditions conditions { orderby := some s2, order := kwOrder } =
        .ok (addCondRest { conditions with
          orderbys := conditions.orderbys ++ [(s2, kwOrder.getD Order.desc)] }
          { orderby := some s2, order := kwOrder })) := by
  constructor
  · have hcond : ¬s.isEmpty = true ∧ s ≠ "KEEP_DEFAULT_ORDERING" := by
      constructor
      · intro he
        rw [String.isEmpty_iff] at he
        rw [he] at h
        simp [pySplit, wsTokensGo] at h
      · intro he
        rw [he] at h
        have : (pySplit "KEEP_DEFAULT_ORDERING").length = 1 := by decide
        omega
    simp only [add_conditions, addCondOrderStage]
    rw [if_pos hcond, if_pos h, orderLoop_spec]
    simp only [Bind.bind, Except.bind, orderTermsSpec]
  · intro s2 hlen he hkeep
    have hcond : ¬s2.isEmpty = true ∧ s2 ≠ "KEEP_DEFAULT_ORDERING" := ⟨by simp [he], hkeep⟩
    simp only [add_conditions, addCondOrderStage]
    rw [if_pos hcond, if_neg (by omega)]
    simp only [Bind.bind, Except.bind]

/-- C8 counterexample: the comma-separated two-field string `"a,b"` (no
whitespace) produces a single ORDER BY term on the literal field `"a,b"`, not
a term per segment; and in the segment `"x somethingasc"`, which ends in
`asc`, the direction is still descending because only an exact second word
`asc` selects ascending. -/
theorem c8_counterexample :
    add_conditions { fromTable := "T" } { orderby := some "a,b" } =
      .ok { fromTable := "T", orderbys := [("a,b", Order.desc)] } ∧
    ([("a,b", Order.desc)] : List (String × Order)) ≠
      [("a", Order.desc), ("b", Order.desc)] ∧
    add_conditions { fromTable := "T" } { orderby := some "x somethingasc" } =
      .ok { fromTable := "T", orderbys := [("x", Order.desc)] } ∧
    Order.desc ≠ Order.asc :=
  ⟨rfl, by decide, rfl, by decide⟩

theorem c8_witness :
    add_conditions { fromTable := "T" } { orderby := some "a desc, b asc" } =
      .ok (addCondRest { fromTable := "T", orderbys := orderTermsSpec "a desc, b asc" }
        { orderby := some "a desc, b asc" }) ∧
    orderTermsSpec "a desc, b asc" = [("a", Order.desc), ("b", Order.asc)] :=
  ⟨(c8_orderby_amended { fromTable := "T" } "a desc, b asc" Option.none (by decide)).1,
   by decide⟩

/-! ## Claim C9 -/

theorem rbGo_no_paren : ∀ (fuel : Nat) (cs : List Char),
    hasSubL ['('] cs = false → rbGo fuel cs = cs := by
  intro fuel
  induction fuel with
  | zero => intro cs h; rfl
  | succ n ih =>
    intro cs h
    cases cs with
    | nil => rfl
    | cons c cs2 =>
      simp only [hasSubL, subPrefix, Bool.or_eq_false_iff, Bool.and_eq_false_iff] at h
      have hc : ¬c = '(' := by
        intro hc
        rcases h.1 with h1 | h1
        · exact absurd hc.symm (by simpa using h1)
        · simp [subPrefix] at h1
      simp only [rbGo]
      rw [if_neg hc]
      rw [ih cs2 h.2]

theorem removeBrackets_id (s : String) (h : hasSub s "(" = false) :
    removeBrackets s = s := by
  have : rbGo s.data.length s.data = s.data := rbGo_no_paren _ _ h
  simp only [removeBrackets, this]

theorem replGo_no_occ : ∀ (fuel : Nat) (cs pat : List Char),
    hasSubL pat cs = false → replGo fuel cs pat = cs := by
  intro fuel
  induction fuel with
  | zero => intro cs pat h; rfl
  | succ n ih =>
    intro cs pat h
    cases cs with
    | nil => rfl
    | cons c cs2 =>
      simp only [hasSubL, Bool.or_eq_false_iff] at h
      simp only [replGo]
      rw [if_neg (by simp [h.1])]
      rw [ih cs2 pat h.2]

theorem pyReplace_no_occ (s pat : String) (h : hasSub s pat = false) :
    pyReplace s pat = s := by
  by_cases hp : pat.isEmpty = true
  · simp [pyReplace, hp]
  · simp only [pyReplace, hp]
    rw [if_neg (by simp [hp])]
    rw [replGo_no_occ _ _ _ h]

theorem subPrefix_of_append : ∀ (p ext s : List Char),
    subPrefix (p ++ ext) s = true → subPrefix p s = true := by
  intro p
  induction p with
  | nil => intro ext s h; rfl
  | cons x xs ih =>
    intro ext s h
    cases s with
    | nil => simp [subPrefix] at h
    | cons c cs =>
      simp only [List.cons_append, subPrefix, Bool.and_eq_true] at h ⊢
      exact ⟨h.1, ih ext cs h.2⟩

theorem hasSubL_of_append : ∀ (s p ext : List Char),
    hasSubL (p ++ ext) s = true → hasSubL p s = true := by
  intro s
  induction s with
  | nil =>
    intro p ext h
    simp only [hasSubL, List.isEmpty_eq_true, List.append_eq_nil] at h ⊢
    simp [h.1]
  | cons c cs ih =>
    intro p ext h
    simp only [hasSubL, Bool.or_eq_true] at h ⊢
    rcases h with h | h
    · exact Or.inl (subPrefix_of_append p ext _ h)
    · exact Or.inr (ih p ext h)

theorem hasSub_ext_false (s p ext : String) (h : hasSub s p = false)
    (hdata : (p ++ ext).data = p.data ++ ext.data) : hasSub s (p ++ ext) = false := by
  cases hq : hasSub s (p ++ ext) with
  | false => rfl
  | true =>
    have : hasSubL (p.data ++ ext.data) s.data = true := by
      rw [← hdata]
      exact hq
    have := hasSubL_of_append s.data p.data ext.data this
    rw [show hasSubL p.data s.data = hasSub s p from rfl, h] at this
    exact Bool.noConfusion this

theorem plainFieldOk_spec (f : String) (hp : plainFieldOk f = true) :
    (lowerStr (pyStripS f)).isEmpty = false ∧ hasSub f "(" = false ∧
    hasSub (lowerStr f) "(" = false ∧ hasSub (lowerStr (pyStripS f)) "(" = false ∧
    hasSub f "`" = false ∧ hasSub f " as " = false ∧
    hasSub (lowerStr (pyStripS f)) " as " = false ∧
    hasSub (lowerStr (pyStripS f)) "`" = false ∧
    hasSub (lowerStr (pyStripS f)) "." = false ∧
    hasSub (lowerStr (pyStripS f)) "sum" = false ∧
    lowerStr (lowerStr (pyStripS f)) ≠ "sum" ∧ lowerStr (pyStripS f) ≠ "*" := by
  simp only [plainFieldOk, Bool.and_eq_true, Bool.not_eq_true', bne_iff_ne, ne_eq] at hp
  obtain ⟨⟨⟨⟨⟨⟨⟨⟨⟨⟨⟨h1, h2⟩, h3⟩, h4⟩, h5⟩, h6⟩, h7⟩, h8⟩, h9⟩, h10⟩, h11⟩, h12⟩ := hp
  exact ⟨h1, h2, h3, h4, h5, h6, h7, h8, h9, h10, h11, h12⟩

theorem removeStringAliasing_sum_id (f : String) (h : hasSub f " as " = false) :
    removeStringAliasing sumTotalFn f = f := by
  have h1 : hasSub f (" as " ++ lowerStr "total") = false :=
    hasSub_ext_false f " as " (lowerStr "total") h (by decide)
  have h2 : hasSub f (" as `" ++ lowerStr "total") = false := by
    have h3 := hasSub_ext_false f " as " ("`" ++ lowerStr "total") h (by decide)
    rw [show (" as " ++ ("`" ++ lowerStr "total")) = (" as `" ++ lowerStr "total") by decide] at h3
    exact h3
  simp only [removeStringAliasing, sumTotalFn]
  rw [if_neg (by decide)]
  rw [if_neg (by simp [h1])]
  rw [if_neg (by simp [h2])]

theorem removeFnListElem_plain (a : String) (hp : plainFieldOk a = true) :
    removeFnListElem sumTotalFn a = lowerStr (pyStripS a) := by
  obtain ⟨hge, hfp, hlfp, hgp, hbt, hfas, hgas, hgbt, hgdot, hgsum, hlg, hstar⟩ :=
    plainFieldOk_spec a hp
  simp only [removeFnListElem, removeStringAliasing_sum_id a hfas,
    removeBrackets_id a hfp, show lowerStr sumTotalFn.name = "sum" from by decide, hbt]
  rw [if_neg (show ¬(false = true) by simp)]
  rw [if_neg hlg]
  exact pyReplace_no_occ _ _ hgsum

theorem removeFnListStep_plain : ∀ (rest : List String),
    (∀ f ∈ rest, plainFieldOk f = true) →
    removeFnListStep sumTotalFn (rest ++ ["sum(amount) as total"]) =
      rest.map (fun f => lowerStr (pyStripS f)) := by
  intro rest
  induction rest with
  | nil =>
    intro _
    rfl
  | cons a r2 ih =>
    intro hrest
    have hge := (plainFieldOk_spec a (hrest a (by simp))).1
    have ih2 := ih (fun f hf => hrest f (by simp [hf]))
    simp only [removeFnListStep] at ih2 ⊢
    rw [List.cons_append, List.map_cons, List.filter_cons,
      removeFnListElem_plain a (hrest a (by simp))]
    rw [if_pos (by simp [hge])]
    rw [List.map_cons]
    congr 1

theorem detectFnString_none (a : String) (hp : plainFieldOk a = true) :
    detectFnString a = Option.none := by
  obtain ⟨hge, hfp, hlfp, hgp, hbt, hfas, hgas, hgbt, hgdot, hgsum, hlg, hstar⟩ :=
    plainFieldOk_spec a hp
  simp [detectFnString, hbt, hlfp]

theorem filterMap_detect_nil : ∀ (rest : List String),
    (∀ f ∈ rest, plainFieldOk f = true) → rest.filterMap detectFnString = [] := by
  intro rest
  induction rest with
  | nil =>
    intro _
    rfl
  | cons a r2 ih =>
    intro hrest
    rw [List.filterMap_cons, detectFnString_none a (hrest a (by simp))]
    exact ih (fun f hf => hrest f (by simp [hf]))

theorem c9_fol (rest : List String) (hrest : ∀ f ∈ rest, plainFieldOk f = true) :
    function_objects_from_list (rest ++ ["sum(amount) as total"]) = .ok [sumTotalFn] := by
  simp only [function_objects_from_list, List.filterMap_append,
    filterMap_detect_nil rest hrest, List.nil_append]
  rfl

theorem mapME_id_of_ok {a : Type} (f : a → Except Err a) :
    ∀ (l : List a), (∀ x ∈ l, f x = .ok x) → mapME f l = .ok l := by
  intro l
  induction l with
  | nil =>
    intro _
    rfl
  | cons x xs ih =>
    intro h
    simp only [mapME, h x (by simp), Bind.bind, Except.bind,
      ih (fun y hy => h y (by simp [hy]))]

theorem gfcEntry_id (tbl : String) (meta : String → String → Option String)
    (g : String) (hg : hasSub g "." = false) : gfcEntry tbl meta g = .ok g := by
  simp [gfcEntry, hg]

theorem gfc_id (tbl : String) (meta : String → String → Option String)
    (l : List String) (h : ∀ g ∈ l, hasSub g "." = false) :
    get_fieldnames_from_child_table tbl meta l = .ok l :=
  mapME_id_of_ok (gfcEntry tbl meta) l (fun g hgm => gfcEntry_id tbl meta g (h g hgm))

theorem glfEntry_plain (g : String) (hne : g.isEmpty = false)
    (has : hasSub g " as " = false) (hbt : hasSub g "`" = false) :
    glfEntry g = .ok (some (.fieldQ g)) := by
  simp [glfEntry, hne, has, hbt]

theorem mapME_glf : ∀ (l : List String),
    (∀ g ∈ l, g.isEmpty = false ∧ hasSub g " as " = false ∧ hasSub g "`" = false) →
    mapME glfEntry l = .ok (l.map (fun g => some (QField.fieldQ g))) := by
  intro l
  induction l with
  | nil =>
    intro _
    rfl
  | cons g l2 ih =>
    intro h
    obtain ⟨hne, has, hbt⟩ := h g (by simp)
    have ih2 := ih (fun f hf => h f (by simp [hf]))
    simp only [mapME, glfEntry_plain g hne has hbt, Bind.bind, Except.bind, ih2, List.map_cons]

theorem filterMap_id_some {a b : Type} : ∀ (l : List a) (f : a → b),
    (l.map (fun g => some (f g))).filterMap id = l.map f := by
  intro l f
  induction l with
  | nil => rfl
  | cons x xs ih => simp [List.filterMap_cons, ih]

theorem contains_ne_false {t : Type} [BEq t] [LawfulBEq t] (l : List t) (a : t)
    (h : ∀ g ∈ l, g ≠ a) : l.contains a = false := by
  cases hc : l.contains a with
  | false => rfl
  | true => exact absurd rfl (h a (List.mem_of_elem_eq_true hc))

theorem filterMap_id_map_some {a : Type} (l : List a) : (l.map some).filterMap id = l := by
  have h := filterMap_id_some l (fun x => x)
  simp only [List.map_id'] at h
  exact h

theorem map_some_contains_none {a : Type} [BEq a] [LawfulBEq a] (l : List a) :
    (l.map some).contains Option.none = false := by
  refine contains_ne_false _ _ ?_
  intro g hg
  obtain ⟨x, _, rfl⟩ := List.mem_map.mp hg
  exact Option.some_ne_none x

theorem glf_plain (tbl : String) (meta : String → String → Option String)
    (rest : List String) (hrest : ∀ f ∈ rest, plainFieldOk f = true) :
    get_list_fields tbl meta (rest.map (fun f => lowerStr (pyStripS f))) =
      .ok (.qs (rest.map (fun f => QField.fieldQ (lowerStr (pyStripS f))))) := by
  have hprops : ∀ g ∈ rest.map (fun f => lowerStr (pyStripS f)),
      g.isEmpty = false ∧ hasSub g " as " = false ∧ hasSub g "`" = false := by
    intro g hg
    obtain ⟨f, hf, rfl⟩ := List.mem_map.mp hg
    obtain ⟨hge, _, _, _, _, _, hgas, hgbt, _, _, _, _⟩ := plainFieldOk_spec f (hrest f hf)
    exact ⟨hge, hgas, hgbt⟩
  have hdots : ∀ g ∈ rest.map (fun f => lowerStr (pyStripS f)), hasSub g "." = false := by
    intro g hg
    obtain ⟨f, hf, rfl⟩ := List.mem_map.mp hg
    exact (plainFieldOk_spec f (hrest f hf)).2.2.2.2.2.2.2.2.1
  have hstars : ∀ g ∈ rest.map (fun f => lowerStr (pyStripS f)), g ≠ "*" := by
    intro g hg
    obtain ⟨f, hf, rfl⟩ := List.mem_map.mp hg
    exact (plainFieldOk_spec f (hrest f hf)).2.2.2.2.2.2.2.2.2.2.2
  simp only [get_list_fields, contains_ne_false _ _ hstars, Bool.false_eq_true, if_false,
    gfc_id tbl meta _ hdots, Bind.bind, Except.bind, mapME_glf _ hprops]
  rw [filterMap_id_some, List.map_map]
  rfl

theorem c9_core (tbl : String) (meta : String → String → Option String)
    (rest : List String) (hrest : ∀ f ∈ rest, plainFieldOk f = true) :
    set_fields_core tbl meta (Sum.inr (rest ++ ["sum(amount) as total"])) =
      .ok ((rest.map (fun f => QField.fieldQ (lowerStr (pyStripS f)))) ++
        [QField.funcQ sumTotalFn]) := by
  have hrs : remove_string_functions_list (rest ++ ["sum(amount) as total"]) [sumTotalFn] =
      rest.map (fun f => lowerStr (pyStripS f)) := by
    simp only [remove_string_functions_list, List.foldl_cons, List.foldl_nil]
    exact removeFnListStep_plain rest hrest
  simp only [set_fields_core, c9_fol rest hrest, Bind.bind, Except.bind, hrs]
  cases rest with
  | nil => rfl
  | cons a r2 =>
    rw [if_neg (by simp)]
    simp only [finishList, glf_plain tbl meta (a :: r2) hrest, Bind.bind, Except.bind]
    rfl

/-- C9: for a list field spec consisting of plain fields next to the string
`"sum(amount) as total"`, `set_fields` resolves the plain fields and yields
exactly one function reference — function name `SUM`, single argument the
field `amount`, alias `total` — and the literal function-call text does not
appear among the residual plain fields. -/
theorem c9_sum_function_extraction (tbl : String)
    (meta : String → String → Option String) (rest : List String) (kw : Kwargs)
    (hkw : kw.pluck = Option.none)
    (hrest : ∀ f ∈ rest, plainFieldOk f = true) :
    set_fields tbl meta (.flist ((rest ++ ["sum(amount) as total"]).map some)) kw =
      .ok (.fieldsR ((rest.map (fun f => QField.fieldQ (lowerStr (pyStripS f)))) ++
        [QField.funcQ sumTotalFn])) ∧
    ((rest.map (fun f => QField.fieldQ (lowerStr (pyStripS f)))) ++
        [QField.funcQ sumTotalFn]).filter isFuncRef = [QField.funcQ sumTotalFn] ∧
    sumTotalFn.name = "SUM" ∧ sumTotalFn.args = [FuncArg.fieldA "amount"] ∧
    sumTotalFn.aliasV = some "total" ∧
    ∀ s, QField.fieldQ s ∈
        ((rest.map (fun f => QField.fieldQ (lowerStr (pyStripS f)))) ++
          [QField.funcQ sumTotalFn]) → s ≠ "sum(amount) as total" := by
  refine ⟨?_, ?_, rfl, rfl, rfl, ?_⟩
  · have hfalsy : specFalsy (.flist ((rest ++ ["sum(amount) as total"]).map some)) = false := by
      simp [specFalsy]
    simp only [set_fields, hkw, hfalsy, Bool.false_eq_true, if_false, sanitize_fields,
      map_some_contains_none, filterMap_id_map_some]
    cases rest with
    | nil => rfl
    | cons a r2 =>
      obtain ⟨y, ys, hys⟩ : ∃ y ys, r2 ++ ["sum(amount) as total"] = y :: ys := by
        cases r2 with
        | nil => exact ⟨"sum(amount) as total", [], rfl⟩
        | cons b bs => exact ⟨b, bs ++ ["sum(amount) as total"], rfl⟩
      rw [List.cons_append, hys]
      dsimp only
      rw [← hys, ← List.cons_append, c9_core tbl meta (a :: r2) hrest]
      rfl
  · rw [List.filter_append]
    have hplain : (rest.map (fun f => QField.fieldQ (lowerStr (pyStripS f)))).filter
        isFuncRef = [] := by
      induction rest with
      | nil => rfl
      | cons a r2 ih => simp [List.filter_cons, isFuncRef, ih]
    rw [hplain]
    rfl
  · intro s hs heq
    rcases List.mem_append.mp hs with hmem | hmem
    · obtain ⟨f, hf, hfe⟩ := List.mem_map.mp hmem
      have hgsum := (plainFieldOk_spec f (hrest f hf)).2.2.2.2.2.2.2.2.2.1
      have h2 : lowerStr (pyStripS f) = s := by
        injection hfe
      rw [h2, heq] at hgsum
      exact absurd hgsum (by decide)
    · simp at hmem

/-- Witness for C9: the field spec `["qty", "rate", "sum(amount) as total"]`
resolves to the two plain fields followed by the single `SUM(amount) AS total`
function reference. -/
theorem c9_witness :
    ({} : Kwargs).pluck = Option.none ∧
    (∀ f ∈ ["qty", "rate"], plainFieldOk f = true) ∧
    set_fields "tabItem" (fun _ _ => Option.none)
      (.flist (((["qty", "rate"] : List String) ++ ["sum(amount) as total"]).map some)) {} =
      .ok (.fieldsR (((["qty", "rate"] : List String).map
          (fun f => QField.fieldQ (lowerStr (pyStripS f)))) ++ [QField.funcQ sumTotalFn])) :=
  ⟨rfl, by decide,
    (c9_sum_function_extraction "tabItem" (fun _ _ => Option.none) ["qty", "rate"] {}
      rfl (by decide)).1⟩
